import Mathlib

/-!
Verification of the typed-args option parser (src/index.ts).

The development shallowly embeds the data model and the operations of the
parser: the definition-string grammar (a JavaScript regular expression),
JSON default-value decoding, the tokenizer (minimist, an external
dependency modelled from the specification), the validation engine and
the top-level entry point.  JavaScript runtime values are modelled by the
inductive type `JSVal`, with numbers as rationals.
-/

namespace TypedArgs

/-- Model of a JavaScript runtime value as used by the parser.
JavaScript numbers are modelled as rationals; the values flowing through
this program are produced by JSON literals and decimal command-line
tokens, where rational arithmetic is exact.  `undefined` is merged with
`null` at the few points where the source only distinguishes them by a
loose `== null` comparison (noted at each use). -/
inductive JSVal where
  | null
  | bool (b : Bool)
  | num (q : Rat)
  | str (s : String)
  | arr (xs : List JSVal)
  | obj (fields : List (String × JSVal))

/-- Loose JavaScript check `v == null` (also covers `undefined`, which the
model merges into `null`). -/
def JSVal.isNull : JSVal → Bool
  | .null => true
  | _ => false

/-- Strict JavaScript check `v === false`. -/
def JSVal.isFalseLit : JSVal → Bool
  | .bool false => true
  | _ => false

/-- Strict JavaScript check `v === true`. -/
def JSVal.isTrueLit : JSVal → Bool
  | .bool true => true
  | _ => false

/-- Runtime check `typeof v === "number"`. -/
def JSVal.isNum : JSVal → Bool
  | .num _ => true
  | _ => false

/-- Runtime check `typeof v === "string"`. -/
def JSVal.isStr : JSVal → Bool
  | .str _ => true
  | _ => false

/-- Runtime check `typeof v === "boolean"`. -/
def JSVal.isBool : JSVal → Bool
  | .bool _ => true
  | _ => false

/-- Runtime check `Array.isArray(v)`. -/
def JSVal.isArr : JSVal → Bool
  | .arr _ => true
  | _ => false

/-- Decimal digit characters. -/
def isDigitChar (c : Char) : Bool := '0' ≤ c ∧ c ≤ '9'

/-- Value of a list of decimal digits. -/
def digitsToNat (cs : List Char) : Nat :=
  cs.foldl (fun acc c => acc * 10 + (c.toNat - '0'.toNat)) 0

/-- Decimal digits of a natural number (fuel-driven so that the kernel can
evaluate it). -/
def natDigitsAux (fuel : Nat) (n : Nat) (acc : List Char) : List Char :=
  match fuel with
  | 0 => acc
  | fuel + 1 =>
    let d := Char.ofNat ('0'.toNat + n % 10)
    if n < 10 then d :: acc else natDigitsAux fuel (n / 10) (d :: acc)

/-- Decimal rendering of a natural number. -/
def natToString (n : Nat) : String := String.mk (natDigitsAux (n + 1) n [])

/-- Decimal rendering of an integer, as JavaScript renders integral
numbers. -/
def jsIntToString (i : Int) : String :=
  if i < 0 then "-" ++ natToString i.natAbs else natToString i.natAbs

/-- Model of the JavaScript conversion `String(n)` for a number `n`.
Exact for integral values, which are the only numbers the coercion paths
of this program are exercised with in the claims; general
double-formatting is out of scope of the rational model.  Non-integral
rationals whose denominator divides a power of ten are rendered as
finite decimals. -/
def jsNumToString (q : Rat) : String :=
  if q.den = 1 then jsIntToString q.num
  else
    match (List.range 40).find? (fun k => q.den ∣ 10 ^ k) with
    | some k =>
      let scaled : Int := q.num * ((10 ^ k : Nat) / q.den : Nat)
      let sign := if scaled < 0 then "-" else ""
      let digs := (natDigitsAux (scaled.natAbs + 1) scaled.natAbs [])
      let digs := List.replicate (k + 1 - digs.length) '0' ++ digs
      sign ++ String.mk (digs.take (digs.length - k)) ++ "." ++
        String.mk (digs.drop (digs.length - k))
    | none => jsIntToString q.num ++ "/" ++ natToString q.den

/-! ## JSON.parse model

`parseDefaultValue` feeds the captured default literal to `JSON.parse`.
The model below implements the JSON grammar: optional whitespace, the
literals `null`, `true`, `false`, numbers without leading `+` or spurious
leading zeros, strings with escape sequences, arrays and objects; the
whole input must be consumed. -/

/-- JSON insignificant whitespace. -/
def jsonWsChar (c : Char) : Bool := c = ' ' ∨ c = '\t' ∨ c = '\n' ∨ c = '\r'

/-- Skip JSON whitespace. -/
def jsonSkipWs (cs : List Char) : List Char := cs.dropWhile jsonWsChar

/-- Hexadecimal digit value. -/
def hexVal (c : Char) : Option Nat :=
  if '0' ≤ c ∧ c ≤ '9' then some (c.toNat - '0'.toNat)
  else if 'a' ≤ c ∧ c ≤ 'f' then some (c.toNat - 'a'.toNat + 10)
  else if 'A' ≤ c ∧ c ≤ 'F' then some (c.toNat - 'A'.toNat + 10)
  else none

/-- Parse the body of a JSON string after the opening quote, returning the
decoded characters and the input after the closing quote. -/
def jsonString (fuel : Nat) (cs : List Char) : Option (List Char × List Char) :=
  match fuel, cs with
  | 0, _ => none
  | _, [] => none
  | fuel + 1, c :: cs =>
    if c = '"' then some ([], cs)
    else if c = '\\' then
      match cs with
      | [] => none
      | e :: cs =>
        let simple : Option Char :=
          if e = '"' then some '"'
          else if e = '\\' then some '\\'
          else if e = '/' then some '/'
          else if e = 'b' then some (Char.ofNat 8)
          else if e = 'f' then some (Char.ofNat 12)
          else if e = 'n' then some '\n'
          else if e = 'r' then some '\r'
          else if e = 't' then some '\t'
          else none
        match simple with
        | some d =>
          match jsonString fuel cs with
          | some (rest, after) => some (d :: rest, after)
          | none => none
        | none =>
          if e = 'u' then
            match cs with
            | h1 :: h2 :: h3 :: h4 :: cs =>
              match hexVal h1, hexVal h2, hexVal h3, hexVal h4 with
              | some a, some b, some c3, some d4 =>
                match jsonString fuel cs with
                | some (rest, after) =>
                  some (Char.ofNat (((a * 16 + b) * 16 + c3) * 16 + d4) :: rest, after)
                | none => none
              | _, _, _, _ => none
            | _ => none
          else none
    else if c.toNat < 32 then none
    else
      match jsonString fuel cs with
      | some (rest, after) => some (c :: rest, after)
      | none => none

/-- Parse a JSON number: `-? int frac? exp?` with `int = 0 | [1-9][0-9]*`. -/
def jsonNumber (cs : List Char) : Option (Rat × List Char) :=
  let (neg, cs) := match cs with
    | '-' :: cs => (true, cs)
    | cs => (false, cs)
  let intDigits := cs.takeWhile isDigitChar
  let cs1 := cs.dropWhile isDigitChar
  if intDigits = [] then none
  else if intDigits.length > 1 ∧ intDigits.head? = some '0' then none
  else
    let (fracDigits, cs2) := match cs1 with
      | '.' :: cs1 =>
        (cs1.takeWhile isDigitChar, cs1.dropWhile isDigitChar)
      | _ => ([], cs1)
    if cs1.head? = some '.' ∧ fracDigits = [] then none
    else
      let (expOk, expNeg, expDigits, cs3) := match cs2 with
        | 'e' :: cs2a | 'E' :: cs2a =>
          let (en, cs2b) := match cs2a with
            | '+' :: r => (false, r)
            | '-' :: r => (true, r)
            | r => (false, r)
          (!(cs2b.takeWhile isDigitChar).isEmpty, en,
            cs2b.takeWhile isDigitChar, cs2b.dropWhile isDigitChar)
        | _ => (true, false, [], cs2)
      if expOk = false then none
      else
        let mantissa : Int :=
          (if neg then -1 else 1) *
            (digitsToNat intDigits * 10 ^ fracDigits.length + digitsToNat fracDigits)
        let e := digitsToNat expDigits
        let q : Rat :=
          if expNeg then mkRat mantissa (10 ^ (fracDigits.length + e))
          else mkRat (mantissa * 10 ^ e) (10 ^ fracDigits.length)
        some (q, cs3)

/-- Parsing mode of the JSON recogniser: a single value, the remaining
items of an array, or the remaining members of an object. -/
inductive JMode where
  | value
  | arrItems (acc : List JSVal)
  | objItems (acc : List (String × JSVal))

/-- Parse in the given mode; fuel-driven recursion for nesting. -/
def jsonRun (fuel : Nat) (mode : JMode) (cs : List Char) :
    Option (JSVal × List Char) :=
  match fuel with
  | 0 => none
  | fuel + 1 =>
    match mode with
    | .value =>
      let cs := jsonSkipWs cs
      match cs with
      | [] => none
      | c :: rest =>
        if c = 'n' then
          match cs with
          | 'n' :: 'u' :: 'l' :: 'l' :: cs => some (.null, cs)
          | _ => none
        else if c = 't' then
          match cs with
          | 't' :: 'r' :: 'u' :: 'e' :: cs => some (.bool true, cs)
          | _ => none
        else if c = 'f' then
          match cs with
          | 'f' :: 'a' :: 'l' :: 's' :: 'e' :: cs => some (.bool false, cs)
          | _ => none
        else if c = '"' then
          match jsonString fuel rest with
          | some (chars, after) => some (.str (String.mk chars), after)
          | none => none
        else if c = '[' then
          match jsonSkipWs rest with
          | ']' :: after => some (.arr [], after)
          | _ => jsonRun fuel (.arrItems []) rest
        else if c = '{' then
          match jsonSkipWs rest with
          | '}' :: after => some (.obj [], after)
          | _ => jsonRun fuel (.objItems []) rest
        else jsonNumber cs |>.map (fun (q, after) => (JSVal.num q, after))
    | .arrItems acc =>
      match jsonRun fuel .value cs with
      | none => none
      | some (v, after) =>
        match jsonSkipWs after with
        | ',' :: more => jsonRun fuel (.arrItems (acc ++ [v])) more
        | ']' :: more => some (.arr (acc ++ [v]), more)
        | _ => none
    | .objItems acc =>
      match jsonSkipWs cs with
      | '"' :: rest =>
        match jsonString fuel rest with
        | none => none
        | some (keyChars, afterKey) =>
          match jsonSkipWs afterKey with
          | ':' :: afterColon =>
            match jsonRun fuel .value afterColon with
            | none => none
            | some (v, after) =>
              match jsonSkipWs after with
              | ',' :: more => jsonRun fuel (.objItems (acc ++ [(String.mk keyChars, v)])) more
              | '}' :: more => some (.obj (acc ++ [(String.mk keyChars, v)]), more)
              | _ => none
          | _ => none
      | _ => none

/-- Model of `JSON.parse`: the whole input, up to surrounding whitespace,
must be one JSON value. -/
def jsonParse (s : String) : Option JSVal :=
  match jsonRun (2 * s.length + 4) .value s.data with
  | some (v, after) => if jsonSkipWs after = [] then some v else none
  | none => none

/-! ## Regular-expression engine

`parseDefinition` matches its input against `definitionRegex`, a JavaScript
regular expression.  The engine below implements the backtracking
semantics of JavaScript regular expressions for the constructs that the
source pattern uses: character classes, concatenation, ordered
alternation, greedy `*`/`+`/`?` (with the ECMAScript rule that a
repetition stops when an iteration matches the empty string) and
numbered capture groups.  Matching is continuation-passing, trying
alternatives in the same order as a JavaScript engine. -/

/-- Abstract form of the regular expressions used by the source. -/
inductive Re where
  | eps
  | cls (p : Char → Bool)
  | seq (a b : Re)
  | alt (a b : Re)
  | star (a : Re)
  | group (i : Nat) (a : Re)

/-- Captured groups: group index paired with the matched characters. -/
abbrev Caps := List (Nat × List Char)

/-- Backtracking matcher.  `k` is the continuation receiving the rest of
the input and the captures; alternatives are tried left to right, and a
`star` prefers more iterations, abandoning an iteration that consumes
nothing (the ECMAScript empty-repetition rule).  `fuel` bounds the
number of repetition steps along one path. -/
def mrun : Nat → Re → List Char → Caps →
    (List Char → Caps → Option Caps) → Option Caps
  | 0, _, _, _, _ => none
  | fuel + 1, re, s, caps, k =>
    match re with
    | .eps => k s caps
    | .cls p =>
      match s with
      | [] => none
      | c :: rest => if p c then k rest caps else none
    | .seq a b => mrun fuel a s caps (fun s1 caps1 => mrun fuel b s1 caps1 k)
    | .alt a b =>
      match mrun fuel a s caps k with
      | some r => some r
      | none => mrun fuel b s caps k
    | .star a =>
      match mrun fuel a s caps (fun s1 caps1 =>
          if s1.length < s.length then mrun fuel (.star a) s1 caps1 k else none) with
      | some r => some r
      | none => k s caps
    | .group i a =>
      mrun fuel a s caps (fun s1 caps1 =>
        k s1 ((i, s.take (s.length - s1.length)) :: caps1))

/-- Anchored execution of a `^...$` pattern, as `RegExp.exec` behaves on
the anchored patterns of the source: the match must start at the
beginning and the continuation accepts only when the input is exhausted. -/
def regexExec (re : Re) (s : String) : Option Caps :=
  mrun ((s.length + 40) * 8) re s.data []
    (fun s1 caps => if s1.isEmpty then some caps else none)

/-- Look up a capture group; `none` models an `undefined` group. -/
def capGet (caps : Caps) (i : Nat) : Option (List Char) :=
  (caps.find? (fun p => p.1 = i)).map (fun p => p.2)

/-- JavaScript `\s` (the whitespace characters relevant here). -/
def jsSpace (c : Char) : Bool :=
  c = ' ' ∨ c = '\t' ∨ c = '\n' ∨ c = '\r' ∨ c = '\x0b' ∨ c = '\x0c'

/-- Character class `[a-zA-Z0-9]`. -/
def jsAlnum (c : Char) : Bool :=
  ('a' ≤ c ∧ c ≤ 'z') ∨ ('A' ≤ c ∧ c ≤ 'Z') ∨ ('0' ≤ c ∧ c ≤ '9')

/-- JavaScript `.` without the `s` flag: any character except a line
terminator. -/
def jsDot (c : Char) : Bool := c ≠ '\n' ∧ c ≠ '\r'

/-- Single literal character. -/
def rlit (c : Char) : Re := .cls (fun d => d = c)

/-- Literal string. -/
def rstr (s : String) : Re := s.data.foldr (fun c r => .seq (rlit c) r) .eps

/-- Greedy `?`. -/
def ropt (a : Re) : Re := .alt a .eps

/-- Greedy `+`. -/
def rplus (a : Re) : Re := .seq a (.star a)

/-- Shorthand for `\s*`. -/
def rws : Re := .star (.cls jsSpace)

/-- The type alternation `boolean|number(?:\s*\[\s*\])?|string(?:\s*\[\s*\])?`. -/
def typeRe : Re :=
  let brackets : Re := .seq rws (.seq (rlit '[') (.seq rws (rlit ']')))
  .alt (rstr "boolean")
    (.alt (.seq (rstr "number") (ropt brackets))
      (.seq (rstr "string") (ropt brackets)))

/-- The default-value scan `(?:[^;"]*(?:"(?:[^"\\]|\\.)*")?)*`. -/
def defaultRe : Re :=
  let quoted : Re :=
    .seq (rlit '"')
      (.seq (.star (.alt (.cls (fun c => c ≠ '"' ∧ c ≠ '\\'))
                         (.seq (rlit '\\') (.cls jsDot))))
        (rlit '"'))
  .star (.seq (.star (.cls (fun c => c ≠ ';' ∧ c ≠ '"'))) (ropt quoted))

/-- The definition grammar, piece by piece the same pattern as
`definitionRegex` in the source:
`^(?:\s*-([a-zA-Z0-9])\s*,)?\s*--([a-zA-Z0-9]+)\s*:\s*(boolean|number(?:\s*\[\s*\])?|string(?:\s*\[\s*\])?)(?:\s*(!)|\s*=\s*((?:[^;"]*(?:"(?:[^"\\]|\\.)*")?)*))?\s*(?:;\s*(.*))?$`. -/
def definitionRegex : Re :=
  .seq (ropt (.seq rws (.seq (rlit '-')
          (.seq (.group 1 (.cls jsAlnum)) (.seq rws (rlit ','))))))
  (.seq rws (.seq (rstr "--") (.seq (.group 2 (rplus (.cls jsAlnum)))
  (.seq rws (.seq (rlit ':') (.seq rws (.seq (.group 3 typeRe)
  (.seq (ropt (.alt (.seq rws (.group 4 (rlit '!')))
                    (.seq rws (.seq (rlit '=') (.seq rws (.group 5 defaultRe))))))
    (.seq rws (ropt (.seq (rlit ';') (.seq rws (.group 6 (.star (.cls jsDot)))))))))))))))

/-! ## Definition parsing -/

/-- The closed set of value types. -/
inductive Ty where
  | boolean
  | numberArray
  | number
  | stringArray
  | string
deriving DecidableEq, Repr

/-- Configuration-time errors (`SettingsError`), one constructor per
throw site, each carrying the data its message interpolates. -/
inductive SErr where
  | unknownType (t : String)
  | couldNotParseDefault (long : String) (dv : String)
  | defaultTypeMismatch (long : String) (ty : Ty) (dv : String)
  | dupKeys (ds : List String)
deriving DecidableEq, Repr

/-- Validation errors (`ValidationError`), one constructor per throw
site, carrying the interpolated data. -/
inductive VErr where
  | targetRequired (msg : String)
  | required (short : Option String) (long : String)
  | multipleValues (foundName : String)
  | notBoolean (foundName : String)
  | notNumber (foundName : String)
  | notAllNumbers (foundName : String)
  | notString (foundName : String)
  | notAllStrings (foundName : String)
  | booleanAssigned (k : String)
  | unknownOption (name : Option String)
deriving DecidableEq, Repr

/-- Any error thrown by the library: a plain `Error` (thrown for a
definition string the grammar rejects), a `SettingsError`, or a
`ValidationError`. -/
inductive Err where
  | plainError (s : String)
  | settings (e : SErr)
  | validation (e : VErr)
deriving DecidableEq, Repr

/-- Rendering of the English noun used by `typeMismatchOfDefaultValue`. -/
def tyNoun : Ty → String
  | .boolean => "a boolean"
  | .number => "a number"
  | .numberArray => "an array of number"
  | .string => "a string"
  | .stringArray => "an array of string"

/-- The message carried by each `SettingsError`, exactly as the source
interpolates it. -/
def SErr.message : SErr → String
  | .unknownType t => "Unknown type: " ++ t
  | .couldNotParseDefault long dv =>
    "Could not parse default value of " ++ long ++ ": " ++ dv
  | .defaultTypeMismatch long ty dv =>
    "The default value of " ++ long ++ " should be " ++ tyNoun ty ++ ": " ++ dv
  | .dupKeys ds => "Duplicated keys found: " ++ String.intercalate ", " ds

/-- The message carried by each `ValidationError`, exactly as the source
interpolates it (a JavaScript template renders `null` and `undefined` as
the corresponding words). -/
def VErr.message : VErr → String
  | .targetRequired msg => msg
  | .required short long =>
    (match short with | some sh => "-" ++ sh ++ " or " | none => "") ++
      "--" ++ long ++ " is required"
  | .multipleValues fn => fn ++ " should not have multiple values"
  | .notBoolean fn => fn ++ " should be a boolean"
  | .notNumber fn => fn ++ " should be a number"
  | .notAllNumbers fn => "All value of " ++ fn ++ " should be a number"
  | .notString fn => fn ++ " should be a string"
  | .notAllStrings fn => "All value of " ++ fn ++ " should be a string"
  | .booleanAssigned k => "--" ++ k ++ " should be a boolean"
  | .unknownOption name => "unknown option: " ++ name.getD "undefined"

/-- The message of any thrown error. -/
def Err.message : Err → String
  | .plainError s => "Syntax Error: " ++ s
  | .settings e => e.message
  | .validation e => e.message

/-- One parsed option definition. -/
structure ParsedDefinition where
  short : Option String
  long : String
  type : Ty
  required : Bool
  defaultValue : JSVal
  description : String

/-- Implicit default of each type. -/
def defaultValueOf : Ty → JSVal
  | .boolean => .bool false
  | .numberArray => .arr []
  | .number => .null
  | .stringArray => .arr []
  | .string => .null

/-- Shape check of a decoded default literal against the declared type. -/
def isDefaultValueCorrectType : Ty → JSVal → Bool
  | .boolean, j => j.isBool
  | .numberArray, j =>
    match j with
    | .arr xs => xs.all JSVal.isNum
    | _ => false
  | .number, j => j.isNum
  | .stringArray, j =>
    match j with
    | .arr xs => xs.all JSVal.isStr
    | _ => false
  | .string, j => j.isStr

/-- Decode a default literal with `JSON.parse`; a decode failure is a
`SettingsError`. -/
def parseDefaultValue (long : String) (defaultValue : String) : Except Err JSVal :=
  match jsonParse defaultValue with
  | some j => .ok j
  | none => .error (.settings (.couldNotParseDefault long defaultValue))

/-- The five recognised type tokens (after whitespace removal). -/
def tyOfString (s : String) : Option Ty :=
  if s = "boolean" then some .boolean
  else if s = "number[]" then some .numberArray
  else if s = "number" then some .number
  else if s = "string[]" then some .stringArray
  else if s = "string" then some .string
  else none

/-- The whitespace stripping `_type.replace(/\s+/g, "")`. -/
def stripSpaces (s : String) : String :=
  String.mk (s.data.filter (fun c => !(jsSpace c)))

/-- Parse one definition string.  A string the grammar rejects throws a
plain `Error` (not a `SettingsError`); an unrecognised type token would
throw a `SettingsError`, but no such token passes the grammar; a default
literal that fails JSON decoding or decodes to the wrong shape throws a
`SettingsError`. -/
def parseDefinition (s : String) : Except Err ParsedDefinition :=
  match regexExec definitionRegex s with
  | none => .error (.plainError s)
  | some caps =>
    match tyOfString (stripSpaces (String.mk ((capGet caps 3).getD []))) with
    | none => .error (.settings (.unknownType (String.mk ((capGet caps 3).getD []))))
    | some type =>
      match capGet caps 5 with
      | none =>
        .ok { short := (capGet caps 1).map String.mk,
              long := String.mk ((capGet caps 2).getD []),
              type,
              required := capGet caps 4 = some ['!'],
              defaultValue := defaultValueOf type,
              description := String.mk ((capGet caps 6).getD []) }
      | some dvChars =>
        match parseDefaultValue (String.mk ((capGet caps 2).getD []))
            (String.mk dvChars) with
        | .error e => .error e
        | .ok j =>
          if isDefaultValueCorrectType type j then
            .ok { short := (capGet caps 1).map String.mk,
                  long := String.mk ((capGet caps 2).getD []),
                  type,
                  required := capGet caps 4 = some ['!'],
                  defaultValue := j,
                  description := String.mk ((capGet caps 6).getD []) }
          else
            .error (.settings (.defaultTypeMismatch
              (String.mk ((capGet caps 2).getD [])) type (String.mk dvChars)))

/-- Loop of `parseDefinitions`: parses each definition in key order,
accumulating every flag seen and every flag seen again. -/
def parseDefinitionsLoop :
    List (String × String) → List (String × ParsedDefinition) →
    List String → List String →
    Except Err (List (String × ParsedDefinition) × List String)
  | [], acc, _, dups => .ok (acc, dups)
  | (key, spec) :: more, acc, keys, dups =>
    match parseDefinition spec with
    | .error e => .error e
    | .ok t =>
      let dups1 := match t.short with
        | some sh => if keys.contains sh then dups ++ [sh] else dups
        | none => dups
      let keys1 := match t.short with
        | some sh => keys ++ [sh]
        | none => keys
      let dups2 := if keys1.contains t.long then dups1 ++ [t.long] else dups1
      let keys2 := keys1 ++ [t.long]
      parseDefinitionsLoop more (acc ++ [(key, t)]) keys2 dups2

/-- Parse a whole definition mapping; any flag name seen more than once
across the set is a `SettingsError` naming all of them. -/
def parseDefinitions (types : List (String × String)) :
    Except Err (List (String × ParsedDefinition)) :=
  match parseDefinitionsLoop types [] [] [] with
  | .error e => .error e
  | .ok (result, dups) =>
    if dups.isEmpty then .ok result
    else .error (.settings (.dupKeys dups))

/-! ## Tokenizer model

Modelled from the spec: the raw token-splitting tokenizer (the external
`minimist` dependency, §4.3/§6 of the specification) is out of the
repository; the model below implements the interface the spec
describes — `--flag=value`, `--flag value`, `-f value`, `-fvalue`, bare
flags, repeated flags accumulating arrays, boolean-declared flags that
never consume a following token, best-effort numeric auto-detection of
values and positional tokens, `-` as an ordinary positional, and a first
bare `--` that sends every later token verbatim into the `--` bucket.
Exotic micro-behaviours of minimist that the spec does not describe
(`--no-x` negation, dotted nested keys, multi-letter short-flag
clusters) are outside the model. -/

/-- Output of the tokenizer: `flags` is the parsed object minus its `_`
and `--` entries, in key insertion order; `targets` is `parsed._`;
`ddash` is `parsed["--"]`. -/
structure Parsed where
  flags : List (String × JSVal)
  targets : List JSVal
  ddash : List String

/-- First value bound to a key in an association list. -/
def lookupAssoc (m : List (String × JSVal)) (k : String) : Option JSVal :=
  (m.find? (fun p => p.1 = k)).map (fun p => p.2)

/-- Replace the binding of a present key, append a fresh one otherwise
(a JavaScript property assignment). -/
def setAssoc (m : List (String × JSVal)) (k : String) (v : JSVal) :
    List (String × JSVal) :=
  match m with
  | [] => [(k, v)]
  | (k1, v1) :: more =>
    if k1 = k then (k, v) :: more else (k1, v1) :: setAssoc more k v

/-- Modelled from the spec: the numeric-token detection of the tokenizer
(`isNumber` in minimist): optional sign, digits with an optional decimal
part or a bare decimal part, and an optional exponent. -/
def numParts (cs : List Char) : Option (Bool × List Char × List Char × Bool × List Char) :=
  let (neg, cs) := match cs with
    | '-' :: cs => (true, cs)
    | '+' :: cs => (false, cs)
    | cs => (false, cs)
  let intDigits := cs.takeWhile isDigitChar
  let cs1 := cs.dropWhile isDigitChar
  let core : Option (List Char × List Char × List Char) :=
    if intDigits.isEmpty then
      match cs1 with
      | '.' :: cs2 =>
        let fr := cs2.takeWhile isDigitChar
        if fr.isEmpty then none
        else some ([], fr, cs2.dropWhile isDigitChar)
      | _ => none
    else
      match cs1 with
      | '.' :: cs2 =>
        some (intDigits, cs2.takeWhile isDigitChar, cs2.dropWhile isDigitChar)
      | _ => some (intDigits, [], cs1)
  match core with
  | none => none
  | some (ip, fp, cs2) =>
    match cs2 with
    | [] => some (neg, ip, fp, false, [])
    | 'e' :: cs3 | 'E' :: cs3 =>
      let (en, cs4) := match cs3 with
        | '+' :: r => (false, r)
        | '-' :: r => (true, r)
        | r => (false, r)
      let ed := cs4.takeWhile isDigitChar
      if ed.isEmpty ∨ !(cs4.dropWhile isDigitChar).isEmpty then none
      else some (neg, ip, fp, en, ed)
    | _ => none

/-- Numeric-token test of the tokenizer. -/
def isNumberStr (s : String) : Bool := (numParts s.data).isSome

/-- Value of a numeric token (`Number(x)` on a matching string). -/
def toNumber (s : String) : Rat :=
  match numParts s.data with
  | none => 0
  | some (neg, ip, fp, en, ed) =>
    let mantissa : Int :=
      (if neg then -1 else 1) *
        (digitsToNat ip * 10 ^ fp.length + digitsToNat fp)
    let e := digitsToNat ed
    if en then mkRat mantissa (10 ^ (fp.length + e))
    else mkRat (mantissa * 10 ^ e) (10 ^ fp.length)

/-- A raw value as the tokenizer stores it: numeric-looking tokens become
numbers, everything else stays a string. -/
def strToVal (s : String) : JSVal :=
  if isNumberStr s then .num (toNumber s) else .str s

/-- The tokenizer assignment `setArg`: boolean-declared keys (and keys
currently holding a boolean) are overwritten; other repeated keys
accumulate into an array. -/
def setArgKey (bools : List String) (m : List (String × JSVal)) (k : String)
    (v : JSVal) : List (String × JSVal) :=
  match lookupAssoc m k with
  | none => m ++ [(k, v)]
  | some old =>
    if bools.contains k ∨ old.isBool then setAssoc m k v
    else match old with
      | .arr xs => setAssoc m k (.arr (xs ++ [v]))
      | _ => setAssoc m k (.arr [old, v])

/-- Split the raw tokens at the first bare `--`. -/
def splitAtDashDash : List String → (List String × List String)
  | [] => ([], [])
  | a :: more =>
    if a = "--" then ([], more)
    else
      let (p, q) := splitAtDashDash more
      (a :: p, q)

/-- Character-list prefix test (`RegExp /^p/` on a literal `p`, and the
`startsWith` lookahead checks), kept on plain lists so that the kernel
evaluates it. -/
def strIsPrefix (p s : String) : Bool := p.data.isPrefixOf s.data

/-- One pass over the tokens before the first `--`, accumulating flag
values and positional targets (fuel-driven; the fuel bounds the number
of tokens). -/
def minimistLoop (bools : List String) :
    Nat → List String → List (String × JSVal) → List JSVal →
    (List (String × JSVal) × List JSVal)
  | 0, _, m, pos => (m, pos)
  | _ + 1, [], m, pos => (m, pos)
  | fuel + 1, arg :: more, m, pos =>
    match arg.data with
    | '-' :: '-' :: c1 :: restCs =>
      if c1 ≠ '=' ∧ restCs.contains '=' then
        -- `--key=value`
        let key := String.mk ((c1 :: restCs).takeWhile (fun c => c ≠ '='))
        let v := String.mk (((c1 :: restCs).dropWhile (fun c => c ≠ '=')).drop 1)
        let value := if bools.contains key then JSVal.bool (v ≠ "false") else strToVal v
        minimistLoop bools fuel more (setArgKey bools m key value) pos
      else
        -- bare `--key`, possibly taking the next token as its value
        let key := String.mk (c1 :: restCs)
        match more with
        | next :: after =>
          if ¬ strIsPrefix "-" next ∧ ¬ bools.contains key then
            minimistLoop bools fuel after (setArgKey bools m key (strToVal next)) pos
          else if next = "true" ∨ next = "false" then
            minimistLoop bools fuel after (setArgKey bools m key (.bool (next = "true"))) pos
          else minimistLoop bools fuel more (setArgKey bools m key (.bool true)) pos
        | [] => minimistLoop bools fuel more (setArgKey bools m key (.bool true)) pos
    | '-' :: c1 :: restCs =>
      if c1 = '-' then
        -- only "--" itself reaches here and it never does before the split
        minimistLoop bools fuel more m (pos ++ [strToVal arg])
      else
        let key := String.mk [c1]
        match restCs with
        | [] =>
          -- bare `-f`, possibly taking the next token as its value
          match more with
          | next :: after =>
            if ¬ strIsPrefix "-" next ∧ ¬ bools.contains key then
              minimistLoop bools fuel after (setArgKey bools m key (strToVal next)) pos
            else if next = "true" ∨ next = "false" then
              minimistLoop bools fuel after (setArgKey bools m key (.bool (next = "true"))) pos
            else minimistLoop bools fuel more (setArgKey bools m key (.bool true)) pos
          | [] => minimistLoop bools fuel more (setArgKey bools m key (.bool true)) pos
        | '=' :: veq =>
          -- `-f=value`
          minimistLoop bools fuel more (setArgKey bools m key (strToVal (String.mk veq))) pos
        | _ =>
          -- `-fvalue` (attached value, §6)
          minimistLoop bools fuel more (setArgKey bools m key (strToVal (String.mk restCs))) pos
    | _ => minimistLoop bools fuel more m (pos ++ [strToVal arg])

/-- Modelled from the spec: the whole tokenizer.  Boolean-declared keys
are first initialised to `false` in declaration order; the tokens before
the first `--` are then folded over; the tokens after it are returned
verbatim. -/
def minimist (args : List String) (bools : List String) : Parsed :=
  let (pre, post) := splitAtDashDash args
  let init := bools.foldl (fun m b => setArgKey bools m b (.bool false)) []
  let (m, pos) := minimistLoop bools (pre.length + 1) pre init []
  { flags := m, targets := pos, ddash := post }

/-! ## Validation engine -/

/-- Result of a successful validation. -/
structure VResult where
  targets : List JSVal
  options : List (String × JSVal)
  rest : List String

/-- The `requireTarget` configuration value (`string | boolean`). -/
inductive RTValue where
  | ofBool (b : Bool)
  | ofString (s : String)
deriving DecidableEq, Repr

/-- JavaScript truthiness of a `requireTarget` value (the empty string is
falsy). -/
def RTValue.truthy : RTValue → Bool
  | .ofBool b => b
  | .ofString s => s ≠ ""

/-- Wrap a non-array value into a one-element array
(`Array.isArray(v) ? v : [v]`). -/
def toArrayVals : JSVal → List JSVal
  | .arr xs => xs
  | v => [v]

/-- Merge the long-flag and short-flag channels (`collectValues`): `null`
on either side yields the other side, two non-null values concatenate as
arrays, long before short.  Inputs are pre-normalised so that an absent
key reads as `null` (the source does this with `??= null`). -/
def collectValues (longValue shortValue : JSVal) : JSVal :=
  if longValue.isNull then shortValue
  else if shortValue.isNull then longValue
  else .arr (toArrayVals longValue ++ toArrayVals shortValue)

/-- Coerce the elements of a `string[]` value: strings pass, numbers are
re-rendered as strings (`String(v)`), anything else fails with the
per-element error. -/
def coerceStringItems (fn : String) : List JSVal → Except Err (List JSVal)
  | [] => .ok []
  | v :: more =>
    match v with
    | .str s =>
      match coerceStringItems fn more with
      | .ok ys => .ok (.str s :: ys)
      | .error e => .error e
    | .num n =>
      match coerceStringItems fn more with
      | .ok ys => .ok (.str (jsNumToString n) :: ys)
      | .error e => .error e
    | _ => .error (.validation (.notAllStrings fn))

/-- First half of the mutation at the head of the per-option loop body:
for a boolean option with a short alias, a short channel holding exactly
`false` (the tokenizer initialisation) is overwritten with `null`. -/
def boolNullingShort (d : ParsedDefinition) (flags0 : List (String × JSVal)) :
    List (String × JSVal) :=
  if d.type = .boolean then
    match d.short with
    | some sh =>
      if (lookupAssoc flags0 sh).any JSVal.isFalseLit then setAssoc flags0 sh .null
      else flags0
    | none => flags0
  else flags0

/-- The whole mutation: after the short channel, a long channel holding
exactly `false` is likewise overwritten with `null`. -/
def boolNulling (d : ParsedDefinition) (flags0 : List (String × JSVal)) :
    List (String × JSVal) :=
  let flags1 := boolNullingShort d flags0
  if d.type = .boolean then
    if (lookupAssoc flags1 d.long).any JSVal.isFalseLit then setAssoc flags1 d.long .null
    else flags1
  else flags1

/-- Per-option resolution: the body of the `for (const key in defs)` loop
of `validate`.  Returns the resolved value together with the (possibly
mutated) parsed-flags object. -/
def resolveOption (d : ParsedDefinition) (flags0 : List (String × JSVal)) :
    Except Err (JSVal × List (String × JSVal)) :=
  let flags := boolNulling d flags0
  let shortValue := match d.short with
    | some sh => (lookupAssoc flags sh).getD .null
    | none => .null
  let longValue := (lookupAssoc flags d.long).getD .null
  let value0 := collectValues longValue shortValue
  let shortName := d.short.map (fun sh => "-" ++ sh)
  let longName := "--" ++ d.long
  let foundName := if longValue.isNull then shortName else some longName
  let fn := foundName.getD "null"
  let value := if value0.isNull then d.defaultValue else value0
  if value.isNull then
    if d.required then .error (.validation (.required d.short d.long))
    else .ok (.null, flags)
  else
    match d.type with
    | .boolean =>
      match value with
      | .arr _ => .error (.validation (.multipleValues fn))
      | .bool _ => .ok (value, flags)
      | _ => .error (.validation (.notBoolean fn))
    | .number =>
      match value with
      | .arr _ => .error (.validation (.multipleValues fn))
      | .num _ => .ok (value, flags)
      | _ => .error (.validation (.notNumber fn))
    | .numberArray =>
      let xs := toArrayVals value
      if xs.all JSVal.isNum then .ok (.arr xs, flags)
      else .error (.validation (.notAllNumbers fn))
    | .string =>
      match value with
      | .arr _ => .error (.validation (.multipleValues fn))
      | .str _ => .ok (value, flags)
      | .num n => .ok (.str (jsNumToString n), flags)
      | _ => .error (.validation (.notString fn))
    | .stringArray =>
      match coerceStringItems fn (toArrayVals value) with
      | .ok ys => .ok (.arr ys, flags)
      | .error e => .error e

/-- `Map.set` on an association list (overwrite or append). -/
def setTy (m : List (String × Ty)) (k : String) (t : Ty) : List (String × Ty) :=
  match m with
  | [] => [(k, t)]
  | (k1, t1) :: more =>
    if k1 = k then (k, t) :: more else (k1, t1) :: setTy more k t

/-- `Map.get` on an association list. -/
def lookupTy (m : List (String × Ty)) (k : String) : Option Ty :=
  (m.find? (fun p => p.1 = k)).map (fun p => p.2)

/-- The declared-keys loop of `validate`: registers each alias in the
long/short type maps, resolves the option, and stores the value under
the caller key; the first error aborts the pass. -/
def validateLoop :
    List (String × ParsedDefinition) → List (String × JSVal) →
    List (String × JSVal) → List (String × Ty) → List (String × Ty) →
    Except Err (List (String × JSVal) × List (String × JSVal) ×
                List (String × Ty) × List (String × Ty))
  | [], flags, result, l2t, s2t => .ok (result, flags, l2t, s2t)
  | (key, d) :: more, flags, result, l2t, s2t =>
    let l2t1 := setTy l2t d.long d.type
    let s2t1 := match d.short with
      | some sh => setTy s2t sh d.type
      | none => s2t
    match resolveOption d flags with
    | .error e => .error e
    | .ok (v, flags1) => validateLoop more flags1 (setAssoc result key v) l2t1 s2t1

/-- Extract the key of a token of the form `--key=...`
(`/^--([^=]+)=.*$/`, where `.` does not cross a line terminator). -/
def longEqKey (arg : String) : Option String :=
  match arg.data with
  | '-' :: '-' :: cs =>
    let k := cs.takeWhile (fun c => c ≠ '=')
    match cs.dropWhile (fun c => c ≠ '=') with
    | '=' :: after =>
      if !k.isEmpty ∧ after.all jsDot then some (String.mk k) else none
    | _ => none
  | _ => none

/-- The post-loop scan over the raw tokens: before the first bare `--`, a
`--key=value` token whose key is a declared boolean long flag is an
error. -/
def boolAssignScan (l2t : List (String × Ty)) : List String → Option VErr
  | [] => none
  | arg :: more =>
    if arg = "--" then none
    else
      match longEqKey arg with
      | some k =>
        if lookupTy l2t k = some .boolean then some (.booleanAssigned k)
        else boolAssignScan l2t more
      | none => boolAssignScan l2t more

/-- Reconstruct an undeclared flag with its original prefix: for each
raw token in order, the source tests `new RegExp("^--" + key)` then
`new RegExp("^-" + key)` and takes the first match; when no token
matches, `name` stays undefined and the message renders `undefined`.
The model implements the two regex tests as literal prefix tests, which
coincides with the source exactly when every character of `key`
satisfies `regexPlainChar`; on other keys the program's regex may match
differently, leave the name undefined, or abort with a `RegExp`
SyntaxError inside the scan, so the general theorems below quantify
only over plain keys. -/
def findUnknownName (args : List String) (key : String) : Option String :=
  match args with
  | [] => none
  | arg :: more =>
    if strIsPrefix ("--" ++ key) arg then some ("--" ++ key)
    else if strIsPrefix ("-" ++ key) arg then some ("-" ++ key)
    else findUnknownName more key

/-- The unknown-option scan: every key of the parsed object (its `_` and
`--` entries are not in `flags`) that is neither a declared long nor a
declared short alias is an error. -/
def unknownScan (args : List String) (l2t s2t : List (String × Ty)) :
    List (String × JSVal) → Option VErr
  | [] => none
  | (key, _) :: more =>
    if (lookupTy l2t key).isNone ∧ (lookupTy s2t key).isNone then
      some (.unknownOption (findUnknownName args key))
    else unknownScan args l2t s2t more

/-- The validation engine `validate`: the `requireTarget` check, then the
per-key pass, then the boolean-assignment scan, then the unknown-option
scan. -/
def validate (args : List String) (parsed : Parsed)
    (defs : List (String × ParsedDefinition)) (requireTarget : RTValue) :
    Except Err VResult :=
  let targets := parsed.targets
  let rest := parsed.ddash
  if requireTarget.truthy ∧ targets.isEmpty then
    .error (.validation (.targetRequired
      (match requireTarget with
       | .ofString s => s
       | .ofBool _ => "")))
  else
    match validateLoop defs parsed.flags [] [] [] with
    | .error e => .error e
    | .ok (result, flags1, l2t, s2t) =>
      match boolAssignScan l2t args with
      | some e => .error (.validation e)
      | none =>
        match unknownScan args l2t s2t flags1 with
        | some e => .error (.validation e)
        | none => .ok { targets, options := result, rest }

/-! ## Entry point -/

/-- The recognised `parseArgs` options with their defaults. -/
structure PAOptions where
  usage : Option String := none
  exitOnError : Bool := true
  handleHelp : Bool := true
  requireTarget : RTValue := .ofBool false

/-- Observable outcome of a `parseArgs` call: a returned result, a
process exit with the given status (help printed), or a thrown error. -/
inductive Outcome where
  | ok (r : VResult)
  | exited (code : Nat)
  | thrown (e : Err)

/-- The boolean flag list handed to the tokenizer: for every
boolean-typed definition, its short alias (when present) then its long
flag, in definition order. -/
def booleanKeys (defs : List (String × ParsedDefinition)) : List String :=
  defs.foldl (fun acc kd =>
    if kd.2.type = .boolean then
      acc ++ (match kd.2.short with | some sh => [sh] | none => []) ++ [kd.2.long]
    else acc) []

/-- The entry point `parseArgs`: parse the definitions (a failure there
propagates regardless of any option), tokenize, validate; on success a
true `help` option with `handleHelp` prints help and exits 0; a
`ValidationError` under `exitOnError` prints help and exits 1, any other
error propagates. -/
def parseArgs (args : List String) (definitions : List (String × String))
    (opts : PAOptions) : Outcome :=
  match parseDefinitions definitions with
  | .error e => .thrown e
  | .ok defs =>
    let bools := booleanKeys defs
    let parsed := minimist args bools
    match validate args parsed defs opts.requireTarget with
    | .ok validated =>
      if opts.handleHelp ∧ (lookupAssoc validated.options "help").any JSVal.isTrueLit then
        .exited 0
      else .ok validated
    | .error e =>
      match e with
      | .validation _ => if opts.exitOnError then .exited 1 else .thrown e
      | _ => .thrown e

/-! ## Predicates used by the statements -/

/-- A definition whose stored default is consistent: either it passed the
shape check of `parseDefinition`, or it is the implicit default of its
type.  Every definition produced by `parseDefinition` satisfies this. -/
def defOk (d : ParsedDefinition) : Prop :=
  isDefaultValueCorrectType d.type d.defaultValue = true ∨
    d.defaultValue = defaultValueOf d.type

/-- A channel (flag name) of the parsed object that reads as absent for
an option of type `ty`: the key is missing, holds `null`, or — for a
boolean option — holds the tokenizer initialisation value `false`, which
`validate` nulls out. -/
def chanAbsent (flags : List (String × JSVal)) (ty : Ty) (k : String) : Prop :=
  match lookupAssoc flags k with
  | none => True
  | some v => v = .null ∨ (ty = .boolean ∧ v = .bool false)

/-- The runtime-type invariant of §3 of the specification: a boolean for
`Boolean`, a number or null for `Number`, a string or null for `String`,
a sequence of numbers (strings) for `NumberArray` (`StringArray`). -/
def typeMatches : Ty → JSVal → Bool
  | .boolean, v => v.isBool
  | .number, v => v.isNum || v.isNull
  | .string, v => v.isStr || v.isNull
  | .numberArray, v =>
    match v with
    | .arr xs => xs.all JSVal.isNum
    | _ => false
  | .stringArray, v =>
    match v with
    | .arr xs => xs.all JSVal.isStr
    | _ => false

/-- The flags contributed by one definition, in the order
`parseDefinitions` registers them (short first, then long). -/
def flagsOfDef (d : ParsedDefinition) : List String :=
  (match d.short with | some sh => [sh] | none => []) ++ [d.long]

/-- All flags of a definition list, in registration order. -/
def flagsOf (defs : List (String × ParsedDefinition)) : List String :=
  (defs.map (fun kd => flagsOfDef kd.2)).flatten

/-- All flags of a raw definition mapping, restricted to the entries
whose spec string parses. -/
def specFlagsOf (types : List (String × String)) : List String :=
  (types.map (fun ks =>
    match parseDefinition ks.2 with
    | .ok d => flagsOfDef d
    | .error _ => [])).flatten

/-- The long-flag type map accumulated by the `validate` loop. -/
def l2tOf (defs : List (String × ParsedDefinition)) (init : List (String × Ty)) :
    List (String × Ty) :=
  defs.foldl (fun m kd => setTy m kd.2.long kd.2.type) init

/-- The short-flag type map accumulated by the `validate` loop. -/
def s2tOf (defs : List (String × ParsedDefinition)) (init : List (String × Ty)) :
    List (String × Ty) :=
  defs.foldl (fun m kd =>
    match kd.2.short with
    | some sh => setTy m sh kd.2.type
    | none => m) init

/-- The message of the `requireTarget` error, as `validate` builds it. -/
def rtMessage : RTValue → String
  | .ofString s => s
  | .ofBool _ => ""

/-- The duplicate-collection discipline of `parseDefinitions` as a pure
scan: every flag that arrives while already seen is recorded, in arrival
order. -/
def dupScan : List String → List String → List String
  | [], _ => []
  | f :: more, seen =>
    if seen.contains f then f :: dupScan more (seen ++ [f])
    else dupScan more (seen ++ [f])

/-- The definitions a mapping parses to, entry by entry, skipping
entries whose spec string fails to parse. -/
def parsedDefsOf (types : List (String × String)) :
    List (String × ParsedDefinition) :=
  types.foldr (fun ks acc =>
    match parseDefinition ks.2 with
    | .ok d => (ks.1, d) :: acc
    | .error _ => acc) []

/-- Class test `e instanceof SettingsError`. -/
def Err.isSettings : Err → Bool
  | .settings _ => true
  | _ => false

/-- Class test `e instanceof ValidationError`. -/
def Err.isValidation : Err → Bool
  | .validation _ => true
  | _ => false

/-! ## Association-list lemmas -/

theorem lookupAssoc_nil (k : String) : lookupAssoc [] k = none := rfl

theorem lookupAssoc_cons (p : String × JSVal) (m : List (String × JSVal)) (k : String) :
    lookupAssoc (p :: m) k = if p.1 = k then some p.2 else lookupAssoc m k := by
  by_cases h : p.1 = k <;> simp [lookupAssoc, List.find?, h]

theorem lookupAssoc_setAssoc (m : List (String × JSVal)) (k k1 : String) (v : JSVal) :
    lookupAssoc (setAssoc m k v) k1 =
      if k1 = k then some v else lookupAssoc m k1 := by
  induction m with
  | nil =>
    rw [show setAssoc [] k v = [(k, v)] from rfl, lookupAssoc_cons, lookupAssoc_nil]
    by_cases h : k1 = k
    · rw [if_pos h, if_pos h.symm]
    · rw [if_neg h, if_neg (fun hc => h hc.symm)]
  | cons p rest ih =>
    obtain ⟨pk, pv⟩ := p
    by_cases hp : pk = k
    · have hset : setAssoc ((pk, pv) :: rest) k v = (k, v) :: rest := by
        simp [setAssoc, hp]
      rw [hset, lookupAssoc_cons, lookupAssoc_cons]
      by_cases h : k1 = k
      · rw [if_pos h, if_pos h.symm]
      · rw [if_neg h, if_neg (fun hc => h hc.symm),
          if_neg (fun hc : pk = k1 => h (hc.symm.trans hp))]
    · have hset : setAssoc ((pk, pv) :: rest) k v = (pk, pv) :: setAssoc rest k v := by
        simp [setAssoc, hp]
      rw [hset, lookupAssoc_cons, ih, lookupAssoc_cons]
      by_cases hpk : pk = k1
      · rw [if_pos hpk, if_neg (fun hc : k1 = k => hp (hpk.trans hc)), if_pos hpk]
      · rw [if_neg hpk]
        by_cases h : k1 = k
        · rw [if_pos h, if_pos h]
        · rw [if_neg h, if_neg h, if_neg hpk]

theorem setAssoc_map_fst_of_mem (m : List (String × JSVal)) (k : String) (v w : JSVal)
    (h : lookupAssoc m k = some w) :
    (setAssoc m k v).map Prod.fst = m.map Prod.fst := by
  induction m with
  | nil => simp [lookupAssoc_nil] at h
  | cons p rest ih =>
    rw [lookupAssoc_cons] at h
    by_cases hp : p.1 = k
    · simp [setAssoc, hp]
    · simp only [hp, if_neg, not_false_iff] at h
      simp [setAssoc, hp, ih h]

theorem chanAbsent_setAssoc_null (m : List (String × JSVal)) (k : String)
    (ty : Ty) (k1 : String) (h : chanAbsent m ty k1) :
    chanAbsent (setAssoc m k .null) ty k1 := by
  unfold chanAbsent at h ⊢
  rw [lookupAssoc_setAssoc]
  by_cases hk : k1 = k
  · simp [hk]
  · simp only [hk, if_neg, not_false_iff]
    exact h

/-! ## Per-option resolution lemmas -/

theorem coerceStringItems_all_str (fn : String) (xs : List JSVal)
    (h : xs.all JSVal.isStr = true) : coerceStringItems fn xs = .ok xs := by
  induction xs with
  | nil => rfl
  | cons x rest ih =>
    rw [List.all_cons, Bool.and_eq_true] at h
    obtain ⟨hx, hrest⟩ := h
    cases x <;> simp [JSVal.isStr] at hx
    simp [coerceStringItems, ih hrest]

theorem boolNulling_step_map_fst (m : List (String × JSVal)) (k : String) :
    ((if (lookupAssoc m k).any JSVal.isFalseLit then setAssoc m k .null else m).map
      Prod.fst) = m.map Prod.fst := by
  by_cases h : (lookupAssoc m k).any JSVal.isFalseLit
  · rw [if_pos h]
    match hm : lookupAssoc m k with
    | none => rw [hm] at h; simp [Option.any] at h
    | some w => exact setAssoc_map_fst_of_mem m k _ w hm
  · rw [if_neg h]

theorem boolNulling_step_lookup (m : List (String × JSVal)) (k1 k2 : String) :
    lookupAssoc (if (lookupAssoc m k1).any JSVal.isFalseLit
        then setAssoc m k1 .null else m) k2 =
      if k2 = k1 ∧ (lookupAssoc m k1).any JSVal.isFalseLit then some .null
      else lookupAssoc m k2 := by
  by_cases h : (lookupAssoc m k1).any JSVal.isFalseLit
  · rw [if_pos h, lookupAssoc_setAssoc]
    by_cases hk : k2 = k1
    · rw [if_pos hk, if_pos ⟨hk, h⟩]
    · rw [if_neg hk, if_neg (fun hc => hk hc.1)]
  · rw [if_neg h, if_neg (fun hc => h hc.2)]

theorem boolNulling_step_chanAbsent (m : List (String × JSVal)) (k1 : String)
    (ty : Ty) (k : String) (h : chanAbsent m ty k) :
    chanAbsent (if (lookupAssoc m k1).any JSVal.isFalseLit
      then setAssoc m k1 .null else m) ty k := by
  by_cases hc : (lookupAssoc m k1).any JSVal.isFalseLit
  · rw [if_pos hc]; exact chanAbsent_setAssoc_null m k1 ty k h
  · rw [if_neg hc]; exact h

theorem boolNullingShort_eq_of_boolean (d : ParsedDefinition)
    (flags : List (String × JSVal)) (hb : d.type = .boolean) (sh : String)
    (hsh : d.short = some sh) :
    boolNullingShort d flags =
      (if (lookupAssoc flags sh).any JSVal.isFalseLit then setAssoc flags sh .null
       else flags) := by
  unfold boolNullingShort
  rw [if_pos hb, hsh]

theorem boolNullingShort_eq_of_none (d : ParsedDefinition)
    (flags : List (String × JSVal)) (h : d.type ≠ .boolean ∨ d.short = none) :
    boolNullingShort d flags = flags := by
  unfold boolNullingShort
  rcases h with hb | hsh
  · rw [if_neg hb]
  · by_cases hb : d.type = .boolean
    · rw [if_pos hb, hsh]
    · rw [if_neg hb]

theorem boolNulling_eq_of_boolean (d : ParsedDefinition) (flags : List (String × JSVal))
    (hb : d.type = .boolean) :
    boolNulling d flags =
      (if (lookupAssoc (boolNullingShort d flags) d.long).any JSVal.isFalseLit
       then setAssoc (boolNullingShort d flags) d.long .null
       else boolNullingShort d flags) := by
  unfold boolNulling
  rw [if_pos hb]

theorem boolNulling_eq_of_not_boolean (d : ParsedDefinition)
    (flags : List (String × JSVal)) (hb : ¬ d.type = .boolean) :
    boolNulling d flags = flags := by
  unfold boolNulling
  rw [if_neg hb]
  exact boolNullingShort_eq_of_none d flags (Or.inl hb)

theorem boolNullingShort_map_fst (d : ParsedDefinition) (flags : List (String × JSVal)) :
    (boolNullingShort d flags).map Prod.fst = flags.map Prod.fst := by
  by_cases hb : d.type = .boolean
  · cases hsh : d.short with
    | none => rw [boolNullingShort_eq_of_none d flags (Or.inr hsh)]
    | some sh =>
      rw [boolNullingShort_eq_of_boolean d flags hb sh hsh, boolNulling_step_map_fst]
  · rw [boolNullingShort_eq_of_none d flags (Or.inl hb)]

theorem boolNulling_map_fst (d : ParsedDefinition) (flags : List (String × JSVal)) :
    (boolNulling d flags).map Prod.fst = flags.map Prod.fst := by
  by_cases hb : d.type = .boolean
  · rw [boolNulling_eq_of_boolean d flags hb, boolNulling_step_map_fst,
      boolNullingShort_map_fst]
  · rw [boolNulling_eq_of_not_boolean d flags hb]

theorem boolNullingShort_chanAbsent (d : ParsedDefinition)
    (flags : List (String × JSVal)) (ty : Ty) (k : String)
    (h : chanAbsent flags ty k) : chanAbsent (boolNullingShort d flags) ty k := by
  by_cases hb : d.type = .boolean
  · cases hsh : d.short with
    | none => rw [boolNullingShort_eq_of_none d flags (Or.inr hsh)]; exact h
    | some sh =>
      rw [boolNullingShort_eq_of_boolean d flags hb sh hsh]
      exact boolNulling_step_chanAbsent _ _ _ _ h
  · rw [boolNullingShort_eq_of_none d flags (Or.inl hb)]; exact h

theorem boolNulling_chanAbsent (d : ParsedDefinition) (flags : List (String × JSVal))
    (ty : Ty) (k : String) (h : chanAbsent flags ty k) :
    chanAbsent (boolNulling d flags) ty k := by
  by_cases hb : d.type = .boolean
  · rw [boolNulling_eq_of_boolean d flags hb]
    exact boolNulling_step_chanAbsent _ _ _ _ (boolNullingShort_chanAbsent d flags ty k h)
  · rw [boolNulling_eq_of_not_boolean d flags hb]; exact h

/-- A `chanAbsent` channel that does not currently hold the boolean
`false` reads as `null`. -/
theorem chanAbsent_not_false_null (m : List (String × JSVal)) (ty : Ty) (k : String)
    (h : chanAbsent m ty k)
    (hf : (lookupAssoc m k).any JSVal.isFalseLit = false) :
    ((lookupAssoc m k).getD .null).isNull = true := by
  unfold chanAbsent at h
  match hm : lookupAssoc m k with
  | none => rfl
  | some v =>
    rw [hm] at h hf
    rcases h with hv | ⟨_, hv⟩
    · rw [hv]; rfl
    · rw [hv] at hf; simp [Option.any, JSVal.isFalseLit] at hf

/-- A `chanAbsent` channel of a non-boolean option reads as `null`. -/
theorem chanAbsent_not_boolean_null (m : List (String × JSVal)) (ty : Ty) (k : String)
    (h : chanAbsent m ty k) (hb : ty ≠ .boolean) :
    ((lookupAssoc m k).getD .null).isNull = true := by
  unfold chanAbsent at h
  match hm : lookupAssoc m k with
  | none => rfl
  | some v =>
    rw [hm] at h
    rcases h with hv | ⟨hty, _⟩
    · rw [hv]; rfl
    · exact absurd hty hb

/-- A channel of the option (its long flag or its short alias) reads as
`null` after the nulling mutation, whenever it was absent before. -/
theorem boolNulling_channel_null (d : ParsedDefinition) (flags : List (String × JSVal))
    (k : String) (hk : k = d.long ∨ d.short = some k)
    (h : chanAbsent flags d.type k) :
    ((lookupAssoc (boolNulling d flags) k).getD .null).isNull = true := by
  by_cases hb : d.type = .boolean
  · rw [boolNulling_eq_of_boolean d flags hb, boolNulling_step_lookup]
    have habs1 : chanAbsent (boolNullingShort d flags) d.type k :=
      boolNullingShort_chanAbsent d flags d.type k h
    by_cases hc : k = d.long ∧
        (lookupAssoc (boolNullingShort d flags) d.long).any JSVal.isFalseLit
    · rw [if_pos hc]; rfl
    · rw [if_neg hc]
      rcases hk with hk | hk
      · -- k is the long flag and the outer condition failed, so the
        -- long channel is not the boolean false
        have hf : (lookupAssoc (boolNullingShort d flags) k).any JSVal.isFalseLit
            = false := by
          by_cases ha :
              (lookupAssoc (boolNullingShort d flags) d.long).any JSVal.isFalseLit
          · exact absurd ⟨hk, ha⟩ hc
          · rw [hk]; simpa using ha
        exact chanAbsent_not_false_null _ _ _ habs1 hf
      · -- k is the short alias: the inner step has already settled it
        have hin : ((lookupAssoc (boolNullingShort d flags) k).getD .null).isNull
            = true := by
          rw [boolNullingShort_eq_of_boolean d flags hb k hk, boolNulling_step_lookup]
          by_cases hcnd : k = k ∧ (lookupAssoc flags k).any JSVal.isFalseLit
          · rw [if_pos hcnd]; rfl
          · rw [if_neg hcnd]
            have hf : (lookupAssoc flags k).any JSVal.isFalseLit = false := by
              by_cases ha : (lookupAssoc flags k).any JSVal.isFalseLit
              · exact absurd ⟨rfl, ha⟩ hcnd
              · simpa using ha
            exact chanAbsent_not_false_null _ _ _ h hf
        exact hin
  · rw [boolNulling_eq_of_not_boolean d flags hb]
    exact chanAbsent_not_boolean_null flags d.type k h hb

theorem JSVal.eq_null_of_isNull (v : JSVal) (h : v.isNull = true) : v = .null := by
  cases v <;> simp [JSVal.isNull] at h ⊢

/-- A consistent default that is not `null` passes the shape check. -/
theorem defOk_shape (d : ParsedDefinition) (hok : defOk d)
    (hnn : d.defaultValue.isNull = false) :
    isDefaultValueCorrectType d.type d.defaultValue = true := by
  obtain ⟨short, long, ty, req, dv, desc⟩ := d
  rcases hok with h | h
  · exact h
  · simp only at h hnn ⊢
    subst h
    cases ty <;>
      simp [defaultValueOf, isDefaultValueCorrectType, JSVal.isBool, JSVal.isArr,
        JSVal.isNull] at hnn ⊢

/-- When every channel of an option is absent, per-option resolution
succeeds with the stored default value, and only the boolean-nulling
mutation touches the parsed object. -/
theorem resolveOption_absent (d : ParsedDefinition) (flags0 : List (String × JSVal))
    (hok : defOk d) (hreq : d.required = true → d.defaultValue.isNull = false)
    (hlong : chanAbsent flags0 d.type d.long)
    (hshort : ∀ sh, d.short = some sh → chanAbsent flags0 d.type sh) :
    resolveOption d flags0 = .ok (d.defaultValue, boolNulling d flags0) := by
  have hLong : ((lookupAssoc (boolNulling d flags0) d.long).getD .null) = .null :=
    JSVal.eq_null_of_isNull _
      (boolNulling_channel_null d flags0 d.long (Or.inl rfl) hlong)
  have hShort : (match d.short with
      | some sh => (lookupAssoc (boolNulling d flags0) sh).getD .null
      | none => (JSVal.null : JSVal)) = .null := by
    cases hsh : d.short with
    | none => rfl
    | some sh =>
      exact JSVal.eq_null_of_isNull _
        (boolNulling_channel_null d flags0 sh (Or.inr hsh) (hshort sh hsh))
  have hshape := fun hnn => defOk_shape d hok hnn
  obtain ⟨short, long, ty, req, dv, desc⟩ := d
  simp only at hLong hShort hreq hshape ⊢
  simp only [resolveOption]
  rw [hShort, hLong]
  simp only [collectValues, JSVal.isNull, if_pos rfl]
  by_cases hdv : dv.isNull
  · have hdvn := JSVal.eq_null_of_isNull _ hdv
    have hrf : req = false := by
      cases hr : req with
      | false => rfl
      | true => rw [hreq hr] at hdv; exact absurd hdv (by simp)
    subst hdvn
    simp [hrf]
  · have hnn : dv.isNull = false := by
      cases hx : dv.isNull
      · rfl
      · exact absurd hx hdv
    have hsh2 := hshape hnn
    cases ty with
    | boolean =>
      cases dv with
      | bool b => simp [JSVal.isNull]
      | null => simp [JSVal.isNull] at hdv
      | num q => simp [isDefaultValueCorrectType, JSVal.isBool] at hsh2
      | str s1 => simp [isDefaultValueCorrectType, JSVal.isBool] at hsh2
      | arr xs => simp [isDefaultValueCorrectType, JSVal.isBool] at hsh2
      | obj fs => simp [isDefaultValueCorrectType, JSVal.isBool] at hsh2
    | number =>
      cases dv with
      | num q => simp [JSVal.isNull]
      | null => simp [JSVal.isNull] at hdv
      | bool b => simp [isDefaultValueCorrectType, JSVal.isNum] at hsh2
      | str s1 => simp [isDefaultValueCorrectType, JSVal.isNum] at hsh2
      | arr xs => simp [isDefaultValueCorrectType, JSVal.isNum] at hsh2
      | obj fs => simp [isDefaultValueCorrectType, JSVal.isNum] at hsh2
    | string =>
      cases dv with
      | str s1 => simp [JSVal.isNull]
      | null => simp [JSVal.isNull] at hdv
      | bool b => simp [isDefaultValueCorrectType, JSVal.isStr] at hsh2
      | num q => simp [isDefaultValueCorrectType, JSVal.isStr] at hsh2
      | arr xs => simp [isDefaultValueCorrectType, JSVal.isStr] at hsh2
      | obj fs => simp [isDefaultValueCorrectType, JSVal.isStr] at hsh2
    | numberArray =>
      cases dv with
      | arr xs =>
        simp only [isDefaultValueCorrectType] at hsh2
        simp [JSVal.isNull, toArrayVals, hsh2]
      | null => simp [JSVal.isNull] at hdv
      | bool b => simp [isDefaultValueCorrectType] at hsh2
      | num q => simp [isDefaultValueCorrectType] at hsh2
      | str s1 => simp [isDefaultValueCorrectType] at hsh2
      | obj fs => simp [isDefaultValueCorrectType] at hsh2
    | stringArray =>
      cases dv with
      | arr xs =>
        simp only [isDefaultValueCorrectType] at hsh2
        simp [JSVal.isNull, toArrayVals, coerceStringItems_all_str _ _ hsh2]
      | null => simp [JSVal.isNull] at hdv
      | bool b => simp [isDefaultValueCorrectType] at hsh2
      | num q => simp [isDefaultValueCorrectType] at hsh2
      | str s1 => simp [isDefaultValueCorrectType] at hsh2
      | obj fs => simp [isDefaultValueCorrectType] at hsh2

theorem coerceStringItems_error_validation (fn : String) (xs : List JSVal) (e : Err)
    (h : coerceStringItems fn xs = .error e) : ∃ ve, e = .validation ve := by
  induction xs with
  | nil => simp [coerceStringItems] at h
  | cons x rest ih =>
    cases x <;> simp only [coerceStringItems] at h
    case null => exact ⟨_, (Except.error.inj h).symm⟩
    case bool b => exact ⟨_, (Except.error.inj h).symm⟩
    case num q =>
      split at h
      · simp at h
      · next heq => exact ih (heq.trans h)
    case str s1 =>
      split at h
      · simp at h
      · next heq => exact ih (heq.trans h)
    case arr xs2 => exact ⟨_, (Except.error.inj h).symm⟩
    case obj fs => exact ⟨_, (Except.error.inj h).symm⟩

/-- Every error raised during per-option resolution is a
`ValidationError`. -/
theorem resolveOption_error_validation (d : ParsedDefinition)
    (flags : List (String × JSVal)) (e : Err)
    (h : resolveOption d flags = .error e) : ∃ ve, e = .validation ve := by
  unfold resolveOption at h
  repeat' first
    | (exact ⟨_, (Except.error.inj h).symm⟩)
    | (exact coerceStringItems_error_validation _ _ _ (by assumption))
    | (exact h ▸ coerceStringItems_error_validation _ _ _ (by assumption))
    | simp at h
    | split at h

/-- Every error raised by the per-key pass is a `ValidationError`. -/
theorem validateLoop_error_validation (defs : List (String × ParsedDefinition))
    (flags res : List (String × JSVal)) (l2t s2t : List (String × Ty)) (e : Err)
    (h : validateLoop defs flags res l2t s2t = .error e) :
    ∃ ve, e = .validation ve := by
  induction defs generalizing flags res l2t s2t with
  | nil => simp [validateLoop] at h
  | cons kd more ih =>
    obtain ⟨key, d⟩ := kd
    simp only [validateLoop] at h
    match hr : resolveOption d flags with
    | .error e1 =>
      rw [hr] at h
      exact (Except.error.inj h) ▸ resolveOption_error_validation d flags e1 hr
    | .ok (v, flags1) =>
      rw [hr] at h
      exact ih _ _ _ _ h

/-- The per-key pass over options whose channels are all absent: it
succeeds, binds every caller key to the stored default, accumulates the
two alias-type maps, and only rewrites boolean `false` channel values to
`null` in the parsed object. -/
theorem validateLoop_absent (defs : List (String × ParsedDefinition))
    (flags res : List (String × JSVal)) (l2t s2t : List (String × Ty))
    (h : ∀ kd ∈ defs, defOk kd.2 ∧
      (kd.2.required = true → kd.2.defaultValue.isNull = false) ∧
      chanAbsent flags kd.2.type kd.2.long ∧
      (∀ sh, kd.2.short = some sh → chanAbsent flags kd.2.type sh)) :
    ∃ flagsF, validateLoop defs flags res l2t s2t =
        .ok (defs.foldl (fun r kd => setAssoc r kd.1 kd.2.defaultValue) res, flagsF,
             l2tOf defs l2t, s2tOf defs s2t) ∧
      flagsF.map Prod.fst = flags.map Prod.fst ∧
      (∀ ty k, chanAbsent flags ty k → chanAbsent flagsF ty k) := by
  induction defs generalizing flags res l2t s2t with
  | nil => exact ⟨flags, rfl, rfl, fun _ _ hh => hh⟩
  | cons kd more ih =>
    obtain ⟨key, d⟩ := kd
    obtain ⟨hok, hreq, hlong, hshort⟩ := h (key, d) (List.mem_cons_self _ _)
    have hres := resolveOption_absent d flags hok hreq hlong hshort
    have hmore : ∀ kd ∈ more, defOk kd.2 ∧
        (kd.2.required = true → kd.2.defaultValue.isNull = false) ∧
        chanAbsent (boolNulling d flags) kd.2.type kd.2.long ∧
        (∀ sh, kd.2.short = some sh → chanAbsent (boolNulling d flags) kd.2.type sh) := by
      intro kd2 hmem
      obtain ⟨a, b, c, e⟩ := h kd2 (List.mem_cons_of_mem _ hmem)
      exact ⟨a, b, boolNulling_chanAbsent d flags _ _ c,
        fun sh hsh => boolNulling_chanAbsent d flags _ _ (e sh hsh)⟩
    obtain ⟨flagsF, heq, hfst, habs⟩ :=
      ih (boolNulling d flags) (setAssoc res key d.defaultValue)
        (setTy l2t d.long d.type)
        (match d.short with | some sh => setTy s2t sh d.type | none => s2t) hmore
    refine ⟨flagsF, ?_, hfst.trans (boolNulling_map_fst d flags), ?_⟩
    · simp only [validateLoop, hres, List.foldl_cons, l2tOf, s2tOf] at heq ⊢
      exact heq
    · intro ty k hh
      exact habs ty k (boolNulling_chanAbsent d flags ty k hh)

/-! ## Definition-set lemmas -/

/-- Every definition produced by `parseDefinition` has a consistent
default. -/
theorem parseDefinition_defOk (s : String) (d : ParsedDefinition)
    (h : parseDefinition s = .ok d) : defOk d := by
  unfold parseDefinition at h
  repeat' first
    | (have hd := Except.ok.inj h; subst hd;
       first | exact Or.inr rfl | exact Or.inl (by assumption))
    | simp at h
    | split at h

theorem specFlagsOf_cons (key spec : String) (more : List (String × String))
    (d : ParsedDefinition) (hd : parseDefinition spec = .ok d) :
    specFlagsOf ((key, spec) :: more) = flagsOfDef d ++ specFlagsOf more := by
  simp [specFlagsOf, hd]

theorem parsedDefsOf_cons (key spec : String) (more : List (String × String))
    (d : ParsedDefinition) (hd : parseDefinition spec = .ok d) :
    parsedDefsOf ((key, spec) :: more) = (key, d) :: parsedDefsOf more := by
  simp [parsedDefsOf, hd]

/-- When every spec string parses, the `parseDefinitions` loop succeeds
and its duplicate list is the pure scan over the flag stream. -/
theorem parseDefinitionsLoop_char (types : List (String × String))
    (acc : List (String × ParsedDefinition)) (keys dups : List String)
    (hp : ∀ ks ∈ types, ∃ d, parseDefinition ks.2 = .ok d) :
    parseDefinitionsLoop types acc keys dups =
      .ok (acc ++ parsedDefsOf types, dups ++ dupScan (specFlagsOf types) keys) := by
  induction types generalizing acc keys dups with
  | nil => simp [parseDefinitionsLoop, parsedDefsOf, specFlagsOf, dupScan]
  | cons ks more ih =>
    obtain ⟨key, spec⟩ := ks
    obtain ⟨d, hd⟩ := hp (key, spec) (List.mem_cons_self _ _)
    have hpm : ∀ ks1 ∈ more, ∃ d1, parseDefinition ks1.2 = .ok d1 :=
      fun ks1 hks => hp ks1 (List.mem_cons_of_mem _ hks)
    rw [specFlagsOf_cons key spec more d hd, parsedDefsOf_cons key spec more d hd]
    simp only [parseDefinitionsLoop, hd]
    cases hsh : d.short with
    | none =>
      simp only [hsh]
      rw [ih _ _ _ hpm]
      simp only [flagsOfDef, hsh]
      by_cases hc : d.long ∈ keys
      · simp [hc, dupScan]
      · simp [hc, dupScan]
    | some sh =>
      simp only [hsh]
      rw [ih _ _ _ hpm]
      simp only [flagsOfDef, hsh]
      by_cases hc1 : sh ∈ keys
      · by_cases hc2 : d.long ∈ keys ++ [sh]
        · simp [hc1, hc2, dupScan]
        · simp [hc1, hc2, dupScan]
      · by_cases hc2 : d.long ∈ keys ++ [sh]
        · simp [hc1, hc2, dupScan]
        · simp [hc1, hc2, dupScan]

/-- If the loop succeeds, every spec string parses. -/
theorem parseDefinitionsLoop_parses (types : List (String × String))
    (acc : List (String × ParsedDefinition)) (keys dups : List String)
    (res : List (String × ParsedDefinition) × List String)
    (h : parseDefinitionsLoop types acc keys dups = .ok res) :
    ∀ ks ∈ types, ∃ d, parseDefinition ks.2 = .ok d := by
  induction types generalizing acc keys dups with
  | nil => intro ks hks; simp at hks
  | cons ks0 more ih =>
    obtain ⟨key, spec⟩ := ks0
    intro ks1 hks
    simp only [parseDefinitionsLoop] at h
    match hd : parseDefinition spec with
    | .error e => rw [hd] at h; simp at h
    | .ok d =>
      rw [hd] at h
      rcases List.mem_cons.mp hks with hk | hk
      · exact ⟨d, hk ▸ hd⟩
      · exact ih _ _ _ h ks1 hk

theorem dupScan_mem_of_seen (stream seen : List String) (f : String)
    (hs : f ∈ stream) (hn : f ∈ seen) : f ∈ dupScan stream seen := by
  induction stream generalizing seen with
  | nil => simp at hs
  | cons g more ih =>
    simp only [dupScan]
    rcases List.mem_cons.mp hs with hf | hf
    · subst hf
      split
      · exact List.mem_cons_self _ _
      · next hcon => exact absurd hn (by simpa using hcon)
    · split
      · exact List.mem_cons_of_mem _ (ih (seen ++ [g]) hf (List.mem_append_left _ hn))
      · exact ih (seen ++ [g]) hf (List.mem_append_left _ hn)

/-- Every flag arriving at least twice is recorded by the scan. -/
theorem dupScan_mem_of_count (stream : List String) (seen : List String) (f : String)
    (h : 2 ≤ stream.count f) : f ∈ dupScan stream seen := by
  induction stream generalizing seen with
  | nil => simp [List.count_nil] at h
  | cons g more ih =>
    simp only [dupScan]
    by_cases hf : f = g
    · subst hf
      have h1 : 1 ≤ more.count f := by
        rw [List.count_cons_self] at h
        omega
      have hmem : f ∈ more := List.count_pos_iff.mp (by omega)
      split
      · exact List.mem_cons_self _ _
      · exact dupScan_mem_of_seen more (seen ++ [f]) f hmem
          (List.mem_append_right _ (List.mem_singleton.mpr rfl))
    · have h1 : 2 ≤ more.count f := by
        rw [List.count_cons_of_ne hf] at h
        exact h
      split
      · exact List.mem_cons_of_mem _ (ih _ h1)
      · exact ih _ h1

/-- An empty scan result means the seen-and-stream flags never repeat. -/
theorem dupScan_nil_nodup (stream seen : List String) (hseen : seen.Nodup)
    (h : dupScan stream seen = []) : (seen ++ stream).Nodup := by
  induction stream generalizing seen with
  | nil => simpa using hseen
  | cons g more ih =>
    simp only [dupScan] at h
    split at h
    · simp at h
    · next hcon =>
      have hg : g ∉ seen := by simpa using hcon
      have hnodup : (seen ++ [g]).Nodup :=
        List.Nodup.append hseen (List.nodup_singleton g)
          (fun a ha hb => hg ((List.mem_singleton.mp hb) ▸ ha))
      have := ih (seen ++ [g]) hnodup h
      simpa using this

/-- A successful `parseDefinitions` yields exactly the entry-by-entry
parsed definitions, and the duplicate scan over the flag stream is
empty. -/
theorem parseDefinitions_parses (types : List (String × String))
    (defs : List (String × ParsedDefinition)) (h : parseDefinitions types = .ok defs) :
    ∀ ks ∈ types, ∃ d, parseDefinition ks.2 = .ok d := by
  unfold parseDefinitions at h
  match hl : parseDefinitionsLoop types [] [] [] with
  | .error e => rw [hl] at h; simp at h
  | .ok res => exact parseDefinitionsLoop_parses types [] [] [] _ hl

/-- A successful `parseDefinitions` yields exactly the entry-by-entry
parsed definitions, and the duplicate scan over the flag stream is
empty. -/
theorem parseDefinitions_char (types : List (String × String))
    (defs : List (String × ParsedDefinition)) (h : parseDefinitions types = .ok defs) :
    defs = parsedDefsOf types ∧ dupScan (specFlagsOf types) [] = [] := by
  have hp := parseDefinitions_parses types defs h
  unfold parseDefinitions at h
  match hl : parseDefinitionsLoop types [] [] [] with
  | .error e => rw [hl] at h; simp at h
  | .ok (res, dups) =>
    rw [hl] at h
    have hchar := parseDefinitionsLoop_char types [] [] [] hp
    rw [hl] at hchar
    have hpair := Except.ok.inj hchar
    have hres : res = parsedDefsOf types := by
      have := congrArg Prod.fst hpair
      simpa using this
    have hdups : dups = dupScan (specFlagsOf types) [] := by
      have := congrArg Prod.snd hpair
      simpa using this
    by_cases hemp : dups.isEmpty
    · have h2 : (if dups.isEmpty then (Except.ok res : Except Err _)
          else .error (.settings (.dupKeys dups))) = .ok defs := h
      rw [if_pos hemp] at h2
      refine ⟨(Except.ok.inj h2).symm.trans hres, ?_⟩
      rw [← hdups]
      exact List.isEmpty_iff.mp hemp
    · have h2 : (if dups.isEmpty then (Except.ok res : Except Err _)
          else .error (.settings (.dupKeys dups))) = .ok defs := h
      rw [if_neg hemp] at h2
      simp at h2

theorem parsedDefsOf_mem (types : List (String × String))
    (kd : String × ParsedDefinition) (h : kd ∈ parsedDefsOf types) :
    ∃ ks ∈ types, ks.1 = kd.1 ∧ parseDefinition ks.2 = .ok kd.2 := by
  induction types with
  | nil => simp [parsedDefsOf] at h
  | cons ks0 more ih =>
    obtain ⟨key, spec⟩ := ks0
    simp only [parsedDefsOf, List.foldr_cons] at h
    match hd : parseDefinition spec with
    | .error e =>
      rw [hd] at h
      obtain ⟨ks1, hks1, hh⟩ := ih h
      exact ⟨ks1, List.mem_cons_of_mem _ hks1, hh⟩
    | .ok d =>
      rw [hd] at h
      rcases List.mem_cons.mp h with hk | hk
      · exact ⟨(key, spec), List.mem_cons_self _ _, by rw [hk], by rw [hk]; exact hd⟩
      · obtain ⟨ks1, hks1, hh⟩ := ih hk
        exact ⟨ks1, List.mem_cons_of_mem _ hks1, hh⟩

/-- Every definition of a successfully parsed set has a consistent
default. -/
theorem parseDefinitions_defOk (types : List (String × String))
    (defs : List (String × ParsedDefinition)) (h : parseDefinitions types = .ok defs) :
    ∀ kd ∈ defs, defOk kd.2 := by
  intro kd hkd
  obtain ⟨hdefs, _⟩ := parseDefinitions_char types defs h
  obtain ⟨ks, _, _, hok⟩ := parsedDefsOf_mem types kd (hdefs ▸ hkd)
  exact parseDefinition_defOk ks.2 kd.2 hok

theorem flagsOf_parsedDefsOf (types : List (String × String))
    (hp : ∀ ks ∈ types, ∃ d, parseDefinition ks.2 = .ok d) :
    flagsOf (parsedDefsOf types) = specFlagsOf types := by
  induction types with
  | nil => rfl
  | cons ks0 more ih =>
    obtain ⟨key, spec⟩ := ks0
    obtain ⟨d, hd⟩ := hp (key, spec) (List.mem_cons_self _ _)
    rw [parsedDefsOf_cons key spec more d hd, specFlagsOf_cons key spec more d hd]
    have := ih (fun ks1 hks => hp ks1 (List.mem_cons_of_mem _ hks))
    simp [flagsOf] at this ⊢
    exact this

/-- The flags of a successfully parsed definition set never repeat. -/
theorem parseDefinitions_flags_nodup (types : List (String × String))
    (defs : List (String × ParsedDefinition)) (h : parseDefinitions types = .ok defs) :
    (flagsOf defs).Nodup := by
  obtain ⟨hdefs, hdups⟩ := parseDefinitions_char types defs h
  have hp := parseDefinitions_parses types defs h
  rw [hdefs, flagsOf_parsedDefsOf types hp]
  have := dupScan_nil_nodup (specFlagsOf types) [] List.nodup_nil hdups
  simpa using this

theorem parsedDefsOf_keys (types : List (String × String))
    (hp : ∀ ks ∈ types, ∃ d, parseDefinition ks.2 = .ok d) :
    (parsedDefsOf types).map Prod.fst = types.map Prod.fst := by
  induction types with
  | nil => rfl
  | cons ks0 more ih =>
    obtain ⟨key, spec⟩ := ks0
    obtain ⟨d, hd⟩ := hp (key, spec) (List.mem_cons_self _ _)
    rw [parsedDefsOf_cons key spec more d hd]
    simp only [List.map_cons]
    rw [ih (fun ks1 hks => hp ks1 (List.mem_cons_of_mem _ hks))]

/-- The caller keys of a successfully parsed definition set are the keys
of the mapping. -/
theorem parseDefinitions_keys (types : List (String × String))
    (defs : List (String × ParsedDefinition)) (h : parseDefinitions types = .ok defs) :
    defs.map Prod.fst = types.map Prod.fst := by
  obtain ⟨hdefs, _⟩ := parseDefinitions_char types defs h
  rw [hdefs]
  exact parsedDefsOf_keys types (parseDefinitions_parses types defs h)

/-! ## Claim C1 -/

/-- C1 counterexample: the definition string `foo` does not match the
grammar, and `parseDefinition` (hence `parseArgs`) throws the plain
`Error` built as `"Syntax Error: " + s`, not a `SettingsError` as the
claim states. -/
theorem C1_counterexample :
    parseDefinition "foo" = .error (.plainError "foo") ∧
    (Err.plainError "foo").isSettings = false ∧
    (Err.plainError "foo").message = "Syntax Error: foo" ∧
    parseArgs ["x"] [("a", "foo")] {} = .thrown (.plainError "foo") :=
  ⟨rfl, rfl, rfl, rfl⟩

/-- C1 amended: a definition string the grammar rejects throws a plain
`Error` (`"Syntax Error: ..."`), not a `SettingsError`; a type token the
switch does not recognise would throw a `SettingsError`; a default
literal that fails JSON decoding, or decodes to a value whose shape does
not match the declared type, throws a `SettingsError`; and a definition
error propagates unchanged through `parseDefinitions` and `parseArgs`. -/
theorem C1_amended (s : String) :
    (regexExec definitionRegex s = none →
      parseDefinition s = .error (.plainError s) ∧
      (Err.plainError s).isSettings = false) ∧
    (∀ caps dv, regexExec definitionRegex s = some caps →
      capGet caps 5 = some dv → jsonParse (String.mk dv) = none →
      ∃ m, parseDefinition s = .error (.settings m)) ∧
    (∀ caps dv ty j, regexExec definitionRegex s = some caps →
      tyOfString (stripSpaces (String.mk ((capGet caps 3).getD []))) = some ty →
      capGet caps 5 = some dv → jsonParse (String.mk dv) = some j →
      isDefaultValueCorrectType ty j = false →
      parseDefinition s = .error (.settings (.defaultTypeMismatch
        (String.mk ((capGet caps 2).getD [])) ty (String.mk dv)))) ∧
    (∀ k e args opts, parseDefinition s = .error e →
      parseDefinitions [(k, s)] = .error e ∧
      parseArgs args [(k, s)] opts = .thrown e) := by
  refine ⟨?_, ?_, ?_, ?_⟩
  · intro hre
    unfold parseDefinition
    rw [hre]
    exact ⟨rfl, rfl⟩
  · intro caps dv hre hcap hjson
    match hty : tyOfString (stripSpaces (String.mk ((capGet caps 3).getD []))) with
    | none =>
      refine ⟨.unknownType (String.mk ((capGet caps 3).getD [])), ?_⟩
      unfold parseDefinition
      rw [hre]
      simp only [hty]
    | some ty =>
      refine ⟨.couldNotParseDefault (String.mk ((capGet caps 2).getD []))
        (String.mk dv), ?_⟩
      unfold parseDefinition parseDefaultValue
      rw [hre]
      simp only [hty, hcap, hjson]
  · intro caps dv ty j hre hty hcap hjson hshape
    unfold parseDefinition parseDefaultValue
    rw [hre]
    simp [hty, hcap, hjson, hshape]
  · intro k e args opts hdef
    have hdefs : parseDefinitions [(k, s)] = .error e := by
      unfold parseDefinitions parseDefinitionsLoop
      rw [hdef]
    refine ⟨hdefs, ?_⟩
    unfold parseArgs
    rw [hdefs]

/-- C1 amended, witness at the concrete inputs `foo` (grammar reject)
and a mapping containing it (propagation). -/
theorem C1_amended_witness :
    (parseDefinition "foo" = .error (.plainError "foo") ∧
      (Err.plainError "foo").isSettings = false) ∧
    (parseDefinitions [("k", "foo")] = .error (.plainError "foo") ∧
      parseArgs [] [("k", "foo")] {} = .thrown (.plainError "foo")) :=
  ⟨(C1_amended "foo").1 rfl, (C1_amended "foo").2.2.2 "k" _ [] {} rfl⟩

/-! ## Claim C2 -/

/-- C2 counterexample: with `requireTarget` enabled, an empty token list
and a declared required option that is missing, the thrown error is the
`requireTarget` `ValidationError`, not the required-option one: the
engine checks `requireTarget` first, not last. -/
theorem C2_counterexample :
    parseArgs [] [("a", "--foo:number!")]
        { exitOnError := false, requireTarget := .ofString "target not found" } =
      .thrown (.validation (.targetRequired "target not found")) ∧
    (VErr.targetRequired "target not found").message = "target not found" :=
  ⟨rfl, rfl⟩

/-- C2 amended: validation reports exactly one error chosen by a fixed
order, but the `requireTarget` empty-targets check runs first, before
the per-option pass — whenever `requireTarget` is truthy and the
resolved targets are empty, `validate` throws the `requireTarget`
`ValidationError` regardless of every other potential error; the
remaining order is per-option checks in a single left-to-right
fail-fast pass over declared keys, then the boolean-assignment scan,
then unknown-flag detection. -/
theorem C2_amended :
    (∀ args parsed defs rt, RTValue.truthy rt = true → parsed.targets = [] →
      validate args parsed defs rt =
        .error (.validation (.targetRequired (rtMessage rt)))) ∧
    parseArgs ["--zzz"] [("a", "--x:number!")] { exitOnError := false } =
      .thrown (.validation (.required none "x")) ∧
    parseArgs ["--b=1", "--zzz"] [("a", "--b:boolean")] { exitOnError := false } =
      .thrown (.validation (.booleanAssigned "b")) ∧
    parseArgs ["--zzz"] [("a", "--b:boolean")] { exitOnError := false } =
      .thrown (.validation (.unknownOption (some "--zzz"))) := by
  refine ⟨?_, rfl, rfl, rfl⟩
  intro args parsed defs rt htr htg
  unfold validate
  rw [htg]
  simp only [List.isEmpty_nil, htr, and_true, if_true]
  cases rt with
  | ofBool b => rfl
  | ofString m => rfl

/-- C2 amended, witness: the `requireTarget`-first branch applied to a
concrete empty-target parse. -/
theorem C2_amended_witness :
    validate [] { flags := [], targets := [], ddash := [] } []
        (.ofString "target not found") =
      .error (.validation (.targetRequired "target not found")) :=
  C2_amended.1 [] _ [] (.ofString "target not found") (by decide) rfl

/-! ## Claim C7 -/

/-- C7 counterexample: a mapping whose first two entries duplicate the
flag `--foo` but whose third entry is unparseable throws the plain
grammar `Error` for the third entry, not a `SettingsError` naming the
duplicated flag. -/
theorem C7_counterexample :
    parseArgs ["x"] [("a", "-x,--foo:boolean"), ("b", "--foo:boolean"), ("c", "??")]
        {} = .thrown (.plainError "??") ∧
    (Err.plainError "??").isSettings = false :=
  ⟨rfl, rfl⟩

/-- C7 amended: for every definitions mapping whose entries all parse
individually and in which some flag name (short or long) appears more
than once across the whole set, `parseArgs` throws a `SettingsError`
naming every duplicated flag, before any argument token is examined
(the same outcome for every token list) and independently of the
`exitOnError` setting. -/
theorem C7_amended (types : List (String × String)) (args : List String)
    (opts : PAOptions) (f : String)
    (hp : ∀ ks ∈ types, ∃ d, parseDefinition ks.2 = .ok d)
    (hdup : 2 ≤ (specFlagsOf types).count f) :
    ∃ ds, parseArgs args types opts = .thrown (.settings (.dupKeys ds)) ∧
      ds ≠ [] ∧
      (∀ g, 2 ≤ (specFlagsOf types).count g → g ∈ ds) ∧
      (Err.settings (.dupKeys ds)).message =
        "Duplicated keys found: " ++ String.intercalate ", " ds := by
  refine ⟨dupScan (specFlagsOf types) [], ?_, ?_, ?_, rfl⟩
  · have hchar := parseDefinitionsLoop_char types [] [] [] hp
    have hne : ¬ (dupScan (specFlagsOf types) []).isEmpty := by
      have hmem := dupScan_mem_of_count (specFlagsOf types) [] f hdup
      intro hemp
      rw [List.isEmpty_iff.mp hemp] at hmem
      simp at hmem
    have hdefs : parseDefinitions types =
        .error (.settings (.dupKeys (dupScan (specFlagsOf types) []))) := by
      unfold parseDefinitions
      rw [hchar]
      simp only [List.nil_append]
      rw [if_neg hne]
    unfold parseArgs
    rw [hdefs]
  · intro hnil
    have hmem := dupScan_mem_of_count (specFlagsOf types) [] f hdup
    rw [hnil] at hmem
    simp at hmem
  · exact fun g hg => dupScan_mem_of_count (specFlagsOf types) [] g hg

/-- C7 amended, witness at a concrete duplicated mapping. -/
theorem C7_amended_witness :
    ∃ ds, parseArgs ["t"] [("a", "--foo:boolean"), ("b", "--foo:boolean")]
        { exitOnError := false } = .thrown (.settings (.dupKeys ds)) ∧
      ds ≠ [] ∧
      (∀ g, 2 ≤ (specFlagsOf
        [("a", "--foo:boolean"), ("b", "--foo:boolean")]).count g → g ∈ ds) ∧
      (Err.settings (.dupKeys ds)).message =
        "Duplicated keys found: " ++ String.intercalate ", " ds := by
  refine C7_amended _ _ _ "foo" ?_ (by decide)
  intro ks hks
  rcases List.mem_cons.mp hks with h | h
  · subst h; exact ⟨_, rfl⟩
  · rcases List.mem_cons.mp h with h1 | h1
    · subst h1; exact ⟨_, rfl⟩
    · simp at h1

/-! ## Claim C3 -/

/-- C3: for an array-typed option declared with both aliases and fed
values through both channels, the resolved array is the long-channel
values followed by the short-channel values, in that fixed order; on
the concrete example, `--foo=1 -f 2` and `-f 2 --foo=1` both resolve to
`[1, 2]` regardless of token order. -/
theorem C3_long_before_short :
    (∀ (d : ParsedDefinition) (flags : List (String × JSVal)) (sh : String)
      (lv sv : JSVal),
      d.type = .numberArray → d.short = some sh →
      lookupAssoc flags d.long = some lv → lookupAssoc flags sh = some sv →
      lv.isNull = false → sv.isNull = false →
      (toArrayVals lv ++ toArrayVals sv).all JSVal.isNum = true →
      resolveOption d flags = .ok (.arr (toArrayVals lv ++ toArrayVals sv), flags)) ∧
    (∀ (d : ParsedDefinition) (flags : List (String × JSVal)) (sh : String)
      (lv sv : JSVal),
      d.type = .stringArray → d.short = some sh →
      lookupAssoc flags d.long = some lv → lookupAssoc flags sh = some sv →
      lv.isNull = false → sv.isNull = false →
      (toArrayVals lv ++ toArrayVals sv).all JSVal.isStr = true →
      resolveOption d flags = .ok (.arr (toArrayVals lv ++ toArrayVals sv), flags)) ∧
    parseArgs ["--foo=1", "-f", "2"] [("a", "-f,--foo:number[]")]
        { exitOnError := false } =
      .ok { targets := [], options := [("a", .arr [.num 1, .num 2])], rest := [] } ∧
    parseArgs ["-f", "2", "--foo=1"] [("a", "-f,--foo:number[]")]
        { exitOnError := false } =
      .ok { targets := [], options := [("a", .arr [.num 1, .num 2])], rest := [] } := by
  refine ⟨?_, ?_, rfl, rfl⟩
  · intro d flags sh lv sv hty hsh hl hs hln hsn hall
    have hnb : ¬ d.type = .boolean := by rw [hty]; exact fun h => Ty.noConfusion h
    unfold resolveOption
    rw [boolNulling_eq_of_not_boolean d flags hnb]
    simp only [hsh, hl, hs, Option.getD_some, collectValues, hln, hsn,
      Bool.false_eq_true, if_false, hty]
    have hred : toArrayVals (JSVal.arr (toArrayVals lv ++ toArrayVals sv)) =
        toArrayVals lv ++ toArrayVals sv := rfl
    simp only [JSVal.isNull, Bool.false_eq_true, if_false, hred, hall, if_true]
  · intro d flags sh lv sv hty hsh hl hs hln hsn hall
    have hnb : ¬ d.type = .boolean := by rw [hty]; exact fun h => Ty.noConfusion h
    unfold resolveOption
    rw [boolNulling_eq_of_not_boolean d flags hnb]
    simp only [hsh, hl, hs, Option.getD_some, collectValues, hln, hsn,
      Bool.false_eq_true, if_false, hty]
    have hred : toArrayVals (JSVal.arr (toArrayVals lv ++ toArrayVals sv)) =
        toArrayVals lv ++ toArrayVals sv := rfl
    have hcoe := coerceStringItems_all_str ("--" ++ d.long)
      (toArrayVals lv ++ toArrayVals sv) hall
    simp only [JSVal.isNull, Bool.false_eq_true, if_false, hred, hcoe]

/-- C3 witness: the general ordering statement applied to a concrete
parsed object holding values on both channels of a number-array
option. -/
theorem C3_long_before_short_witness :
    resolveOption
        { short := some "f", long := "foo", type := .numberArray, required := false,
          defaultValue := .arr [], description := "" }
        [("foo", .num 1), ("f", .num 2)] =
      .ok (.arr [.num 1, .num 2], [("foo", .num 1), ("f", .num 2)]) := by
  have h := C3_long_before_short.1
    { short := some "f", long := "foo", type := .numberArray, required := false,
      defaultValue := .arr [], description := "" }
    [("foo", .num 1), ("f", .num 2)] "f" (.num 1) (.num 2)
    rfl rfl rfl rfl rfl rfl rfl
  exact h

/-! ## Claim C4 -/

/-- C4: a numeric value supplied to a `string`-typed option is coerced
back to its textual representation instead of failing — in general, a
long-channel number `n` resolves to the string `String(n)`; for
`string[]`, the coercion maps every numeric element in place; on the
concrete inputs `--str=1`, `-s 1` and `-s1` the result is the string
`"1"`, not the number `1`. -/
theorem C4_string_coercion :
    (∀ (d : ParsedDefinition) (flags : List (String × JSVal)) (n : Rat),
      d.type = .string →
      lookupAssoc flags d.long = some (.num n) →
      (∀ sh, d.short = some sh → lookupAssoc flags sh = none) →
      resolveOption d flags = .ok (.str (jsNumToString n), flags)) ∧
    (∀ (fn : String) (ns : List Rat),
      coerceStringItems fn (ns.map JSVal.num) =
        .ok (ns.map (fun n => .str (jsNumToString n)))) ∧
    parseArgs ["--str=1"] [("s", "-s,--str:string")] { exitOnError := false } =
      .ok { targets := [], options := [("s", .str "1")], rest := [] } ∧
    parseArgs ["-s", "1"] [("s", "-s,--str:string")] { exitOnError := false } =
      .ok { targets := [], options := [("s", .str "1")], rest := [] } ∧
    parseArgs ["-s1"] [("s", "-s,--str:string")] { exitOnError := false } =
      .ok { targets := [], options := [("s", .str "1")], rest := [] } ∧
    parseArgs ["--str=1", "--str=2"] [("s", "-s,--str:string[]")]
        { exitOnError := false } =
      .ok { targets := [], options := [("s", .arr [.str "1", .str "2"])], rest := [] } := by
  refine ⟨?_, ?_, rfl, rfl, rfl, rfl⟩
  · intro d flags n hty hl hshort
    have hnb : ¬ d.type = .boolean := by rw [hty]; exact fun h => Ty.noConfusion h
    unfold resolveOption
    rw [boolNulling_eq_of_not_boolean d flags hnb]
    have hShort : (match d.short with
        | some sh => (lookupAssoc flags sh).getD .null
        | none => (JSVal.null : JSVal)) = .null := by
      cases hsh : d.short with
      | none => rfl
      | some sh =>
        show (lookupAssoc flags sh).getD .null = .null
        rw [hshort sh hsh]
        rfl
    simp [hShort, hl, collectValues, JSVal.isNull, hty]
  · intro fn ns
    induction ns with
    | nil => rfl
    | cons n more ih => simp [coerceStringItems, ih]

/-- C4 witness: the coercion statements applied to a concrete string
option holding the number `1` and to the element list `[1, 2]`. -/
theorem C4_string_coercion_witness :
    resolveOption
        { short := some "s", long := "str", type := .string, required := false,
          defaultValue := .null, description := "" }
        [("str", .num 1)] =
      .ok (.str "1", [("str", .num 1)]) ∧
    coerceStringItems "--str" [.num 1, .num 2] = .ok [.str "1", .str "2"] := by
  constructor
  · have h := C4_string_coercion.1
      { short := some "s", long := "str", type := .string, required := false,
        defaultValue := .null, description := "" }
      [("str", .num 1)] 1 rfl rfl
      (fun sh hsh => by
        have : sh = "s" := by
          have := Option.some.inj hsh
          rw [← this]
        rw [this]
        rfl)
    simpa using h
  · have h := C4_string_coercion.2.1 "--str" [1, 2]
    simpa using h

/-! ## Claim C10 -/

/-- The only error the `string[]` element pass raises is the
per-element string error with the same found-name. -/
theorem coerceStringItems_error_shape (fn : String) (xs : List JSVal) (e : Err)
    (h : coerceStringItems fn xs = .error e) : e = .validation (.notAllStrings fn) := by
  induction xs with
  | nil => simp [coerceStringItems] at h
  | cons x rest ih =>
    cases x <;> simp only [coerceStringItems] at h
    case null => exact (Except.error.inj h).symm
    case bool b => exact (Except.error.inj h).symm
    case num q =>
      split at h
      · simp at h
      · next heq => exact ih (heq.trans h)
    case str s1 =>
      split at h
      · simp at h
      · next heq => exact ih (heq.trans h)
    case arr xs2 => exact (Except.error.inj h).symm
    case obj fs => exact (Except.error.inj h).symm

/-- A consistent default of a boolean or array option is never null. -/
theorem defOk_default_not_null (d : ParsedDefinition) (hok : defOk d)
    (hty : d.type = .boolean ∨ d.type = .numberArray ∨ d.type = .stringArray) :
    d.defaultValue.isNull = false := by
  rcases hok with h | h
  · rcases hty with hty | hty | hty <;> rw [hty] at h <;>
      cases hdv : d.defaultValue <;> rw [hdv] at h <;>
        simp [isDefaultValueCorrectType, JSVal.isBool, JSVal.isNull] at h ⊢
  · rcases hty with hty | hty | hty <;> rw [h, hty] <;> rfl

/-- C10: for an option whose declared type is boolean, `number[]` or
`string[]`, the required-option `ValidationError` branch is unreachable:
whatever the parsed object holds, resolution never fails that option as
required, because the type substitutes a non-null implicit default
before the required check. -/
theorem C10_required_unreachable (s : String) (d : ParsedDefinition)
    (hparse : parseDefinition s = .ok d)
    (hty : d.type = .boolean ∨ d.type = .numberArray ∨ d.type = .stringArray) :
    ∀ (flags : List (String × JSVal)) (sh : Option String) (lg : String),
      resolveOption d flags ≠ .error (.validation (.required sh lg)) := by
  intro flags sh lg hcon
  have hdflt := defOk_default_not_null d (parseDefinition_defOk s d hparse) hty
  have hval : ∀ v0 : JSVal,
      (if v0.isNull = true then d.defaultValue else v0).isNull = false := by
    intro v0
    by_cases hz : v0.isNull = true
    · rw [if_pos hz]; exact hdflt
    · rw [if_neg hz]
      cases hb : v0.isNull
      · rfl
      · exact absurd hb hz
  unfold resolveOption at hcon
  simp only [hval, Bool.false_eq_true, if_false] at hcon
  repeat' first
    | simp at hcon
    | (next heq =>
        exact absurd ((coerceStringItems_error_shape _ _ _ heq).symm.trans hcon)
          (by simp))
    | split at hcon

/-- C10 witness: a required boolean option entirely absent from the
input does not raise its required error. -/
theorem C10_required_unreachable_witness :
    resolveOption
        { short := none, long := "a", type := .boolean, required := true,
          defaultValue := .bool false, description := "" } [] ≠
      .error (.validation (.required none "--a")) := by
  have hp : parseDefinition "--a:boolean!" = .ok
      { short := none, long := "a", type := .boolean, required := true,
        defaultValue := .bool false, description := "" } := rfl
  exact C10_required_unreachable "--a:boolean!" _ hp (Or.inl rfl) [] none "--a"

/-! ## Claim C5 -/

/-- The alias-type maps the per-key pass returns are the folds over the
definition list. -/
theorem validateLoop_maps (defs : List (String × ParsedDefinition))
    (flags res : List (String × JSVal)) (l2t s2t : List (String × Ty))
    (r : List (String × JSVal)) (f : List (String × JSVal))
    (L S : List (String × Ty))
    (h : validateLoop defs flags res l2t s2t = .ok (r, f, L, S)) :
    L = l2tOf defs l2t ∧ S = s2tOf defs s2t := by
  induction defs generalizing flags res l2t s2t with
  | nil =>
    simp only [validateLoop] at h
    have := Except.ok.inj h
    refine ⟨?_, ?_⟩
    · have h1 := congrArg (fun p => p.2.2.1) this
      simpa [l2tOf] using h1.symm
    · have h1 := congrArg (fun p => p.2.2.2) this
      simpa [s2tOf] using h1.symm
  | cons kd more ih =>
    obtain ⟨key, d⟩ := kd
    simp only [validateLoop] at h
    match hr : resolveOption d flags with
    | .error e => rw [hr] at h; simp at h
    | .ok (v, flags1) =>
      rw [hr] at h
      have := ih _ _ _ _ h
      simpa [l2tOf, s2tOf] using this

/-- Before the first bare `--`, a `--key=value` token whose key is typed
boolean makes the scan fire. -/
theorem boolAssignScan_hits (l2t : List (String × Ty)) (pre : List String)
    (arg : String) (post : List String) (k : String)
    (hpre : "--" ∉ pre) (harg : longEqKey arg = some k)
    (hk : lookupTy l2t k = some .boolean) :
    ∃ e, boolAssignScan l2t (pre ++ arg :: post) = some e := by
  induction pre with
  | nil =>
    have hne : arg ≠ "--" := by
      intro hh
      rw [hh] at harg
      simp [longEqKey] at harg
    simp only [List.nil_append, boolAssignScan, hne, if_neg, not_false_iff, harg, hk]
    exact ⟨_, rfl⟩
  | cons p pre1 ih =>
    have hpne : p ≠ "--" := fun hh => hpre (hh ▸ List.mem_cons_self _ _)
    have hpre1 : "--" ∉ pre1 := fun hh => hpre (List.mem_cons_of_mem _ hh)
    obtain ⟨e, he⟩ := ih hpre1
    simp only [List.cons_append, boolAssignScan, hpne, if_neg, not_false_iff]
    match hp : longEqKey p with
    | none => exact ⟨e, he⟩
    | some k2 =>
      by_cases hk2 : lookupTy l2t k2 = some .boolean
      · simp only [hk2, if_pos]
        exact ⟨_, rfl⟩
      · simp only [hk2, if_neg, not_false_iff]
        exact ⟨e, he⟩

/-- C5: a token assigning an explicit value to a declared boolean long
flag (`--flag=anything`) placed anywhere before the first bare `--`
makes `validate` throw a `ValidationError`, whatever the rest of the
input is; on the concrete option `-a,--foo:boolean`, `--foo=x` before
`--` throws the error naming `--foo`, while after `--` the same token is
inert and lands verbatim in `rest`. -/
theorem C5_boolean_strictness :
    (∀ (parsed : Parsed) (defs : List (String × ParsedDefinition)) (rt : RTValue)
      (pre : List String) (arg : String) (post : List String) (k : String),
      "--" ∉ pre → longEqKey arg = some k →
      lookupTy (l2tOf defs []) k = some .boolean →
      ∃ ve, validate (pre ++ arg :: post) parsed defs rt =
        .error (.validation ve)) ∧
    parseArgs ["--foo=x"] [("s", "-a,--foo:boolean")] { exitOnError := false } =
      .thrown (.validation (.booleanAssigned "foo")) ∧
    (VErr.booleanAssigned "foo").message = "--foo should be a boolean" ∧
    parseArgs ["--", "--foo=x"] [("s", "-a,--foo:boolean")] { exitOnError := false } =
      .ok { targets := [], options := [("s", .bool false)], rest := ["--foo=x"] } := by
  refine ⟨?_, rfl, rfl, rfl⟩
  intro parsed defs rt pre arg post k hpre harg hk
  unfold validate
  by_cases hrt : rt.truthy = true ∧ parsed.targets.isEmpty = true
  · rw [if_pos hrt]
    exact ⟨_, rfl⟩
  · rw [if_neg hrt]
    match hl : validateLoop defs parsed.flags [] [] [] with
    | .error e =>
      obtain ⟨ve, hve⟩ := validateLoop_error_validation defs _ _ _ _ e hl
      exact ⟨ve, by rw [hve]⟩
    | .ok (res, flags1, l2t, s2t) =>
      obtain ⟨hL, _⟩ := validateLoop_maps defs _ _ _ _ _ _ _ _ hl
      obtain ⟨e, he⟩ := boolAssignScan_hits l2t pre arg post k hpre harg (hL ▸ hk)
      exact ⟨e, by simp only [he]⟩

/-- C5 witness: the general before-`--` statement applied to the
concrete boolean option and token. -/
theorem C5_boolean_strictness_witness :
    ∃ ve, validate ["--foo=x"]
        { flags := [("a", .bool false), ("foo", .bool true)], targets := [],
          ddash := [] }
        [("s", { short := some "a", long := "foo", type := .boolean,
                 required := false, defaultValue := .bool false, description := "" })]
        (.ofBool false) = .error (.validation ve) :=
  C5_boolean_strictness.1 _ _ (.ofBool false) [] "--foo=x" [] "foo"
    (by simp) rfl rfl

/-! ## Tokenizer-initialisation and map lemmas -/

theorem lookupAssoc_append_single (m : List (String × JSVal)) (b k : String) (v : JSVal) :
    lookupAssoc (m ++ [(b, v)]) k =
      match lookupAssoc m k with
      | some w => some w
      | none => if b = k then some v else none := by
  induction m with
  | nil => simp [lookupAssoc_cons, lookupAssoc_nil]
  | cons p rest ih =>
    rw [List.cons_append, lookupAssoc_cons, lookupAssoc_cons]
    by_cases hp : p.1 = k
    · simp [hp]
    · simp only [hp, if_neg, not_false_iff]
      exact ih

theorem setArgKey_lookup_of_mem (bools : List String) (m : List (String × JSVal))
    (b k : String) (v : JSVal) (hb : bools.contains b = true) :
    lookupAssoc (setArgKey bools m b v) k =
      if k = b then some v else lookupAssoc m k := by
  cases hm : lookupAssoc m b with
  | none =>
    rw [show setArgKey bools m b v = m ++ [(b, v)] by rw [setArgKey, hm]]
    rw [lookupAssoc_append_single]
    by_cases hk : k = b
    · subst hk
      rw [hm, if_pos rfl]
    · rw [if_neg hk]
      cases hmk : lookupAssoc m k with
      | some w => rfl
      | none => simp [Ne.symm hk]
  | some old =>
    rw [show setArgKey bools m b v = setAssoc m b v by
      rw [setArgKey, hm]; exact if_pos (Or.inl hb)]
    rw [lookupAssoc_setAssoc]

/-- Lookup in the tokenizer boolean initialisation fold. -/
theorem boolInit_foldl_lookup (bools : List String) (bl : List String)
    (acc : List (String × JSVal)) (k : String)
    (hsub : ∀ b ∈ bl, bools.contains b = true) :
    lookupAssoc (bl.foldl (fun m b => setArgKey bools m b (.bool false)) acc) k =
      if k ∈ bl then some (.bool false) else lookupAssoc acc k := by
  induction bl generalizing acc with
  | nil => simp
  | cons b bl1 ih =>
    rw [List.foldl_cons]
    rw [ih _ (fun b1 hb1 => hsub b1 (List.mem_cons_of_mem _ hb1))]
    by_cases hk1 : k ∈ bl1
    · rw [if_pos hk1, if_pos (List.mem_cons_of_mem _ hk1)]
    · rw [if_neg hk1,
        setArgKey_lookup_of_mem bools acc b k _ (hsub b (List.mem_cons_self _ _))]
      by_cases hkb : k = b
      · rw [if_pos hkb, if_pos (by rw [hkb]; exact List.mem_cons_self _ _)]
      · rw [if_neg hkb, if_neg (by
          intro hc
          rcases List.mem_cons.mp hc with h1 | h1
          · exact hkb h1
          · exact hk1 h1)]

theorem foldl_append_flatten {α β : Type} (l : List α) (g : α → List β)
    (acc : List β) :
    l.foldl (fun a x => a ++ g x) acc = acc ++ (l.map g).flatten := by
  induction l generalizing acc with
  | nil => simp
  | cons x more ih => simp [ih, List.append_assoc]

theorem booleanKeys_eq (defs : List (String × ParsedDefinition)) :
    booleanKeys defs =
      (defs.map (fun kd =>
        if kd.2.type = .boolean then flagsOfDef kd.2 else [])).flatten := by
  unfold booleanKeys
  have hstep : ∀ (acc : List String) (kd : String × ParsedDefinition),
      (if kd.2.type = .boolean then
        acc ++ (match kd.2.short with | some sh => [sh] | none => []) ++ [kd.2.long]
       else acc) =
      acc ++ (if kd.2.type = .boolean then flagsOfDef kd.2 else []) := by
    intro acc kd
    by_cases hb : kd.2.type = .boolean
    · simp [hb, flagsOfDef, List.append_assoc]
    · simp [hb]
  calc defs.foldl (fun acc kd =>
        if kd.2.type = .boolean then
          acc ++ (match kd.2.short with | some sh => [sh] | none => []) ++ [kd.2.long]
        else acc) []
      = defs.foldl (fun acc kd =>
          acc ++ (if kd.2.type = .boolean then flagsOfDef kd.2 else [])) [] := by
        congr 1
        funext acc kd
        exact hstep acc kd
    _ = _ := by
        rw [foldl_append_flatten]
        simp

theorem mem_booleanKeys (defs : List (String × ParsedDefinition)) (k : String) :
    k ∈ booleanKeys defs ↔
      ∃ kd ∈ defs, kd.2.type = .boolean ∧ k ∈ flagsOfDef kd.2 := by
  rw [booleanKeys_eq]
  simp only [List.mem_flatten, List.mem_map]
  constructor
  · rintro ⟨l, ⟨kd, hkd, hl⟩, hkl⟩
    by_cases hb : kd.2.type = .boolean
    · exact ⟨kd, hkd, hb, by rw [← hl] at hkl; simpa [hb] using hkl⟩
    · rw [← hl] at hkl; simp [hb] at hkl
  · rintro ⟨kd, hkd, hb, hk⟩
    exact ⟨flagsOfDef kd.2, ⟨kd, hkd, by simp [hb]⟩, hk⟩

/-- The flags of a definition list as a flattened map. -/
theorem flagsOf_eq (defs : List (String × ParsedDefinition)) :
    flagsOf defs = (defs.map (fun kd => flagsOfDef kd.2)).flatten := rfl

/-- With no duplicated flags, a flag of a non-boolean definition is
never a boolean key. -/
theorem nodup_flag_owner (defs : List (String × ParsedDefinition))
    (hnd : (flagsOf defs).Nodup) (kd : String × ParsedDefinition)
    (hkd : kd ∈ defs) (k : String) (hk : k ∈ flagsOfDef kd.2)
    (hb : k ∈ booleanKeys defs) : kd.2.type = .boolean := by
  by_contra hnb
  obtain ⟨kd1, hkd1, hb1, hk1⟩ := (mem_booleanKeys defs k).mp hb
  have hne : kd ≠ kd1 := fun hc => hnb (hc ▸ hb1)
  rw [flagsOf_eq] at hnd
  have hpair := (List.nodup_flatten.mp hnd).2
  have hdisj :=
    (List.pairwise_map.mp hpair).forall
      (fun a b (h : List.Disjoint _ _) => h.symm) hkd hkd1 hne
  exact hdisj hk hk1

theorem lookupTy_nil (k : String) : lookupTy [] k = none := rfl

theorem lookupTy_cons (p : String × Ty) (m : List (String × Ty)) (k : String) :
    lookupTy (p :: m) k = if p.1 = k then some p.2 else lookupTy m k := by
  by_cases h : p.1 = k <;> simp [lookupTy, List.find?, h]

theorem lookupTy_setTy (m : List (String × Ty)) (k k1 : String) (t : Ty) :
    lookupTy (setTy m k t) k1 = if k1 = k then some t else lookupTy m k1 := by
  induction m with
  | nil =>
    rw [show setTy [] k t = [(k, t)] from rfl, lookupTy_cons, lookupTy_nil]
    by_cases h : k1 = k
    · rw [if_pos h, if_pos h.symm]
    · rw [if_neg h, if_neg (fun hc => h hc.symm)]
  | cons p rest ih =>
    obtain ⟨pk, pt⟩ := p
    by_cases hp : pk = k
    · have hset : setTy ((pk, pt) :: rest) k t = (k, t) :: rest := by
        rw [setTy, if_pos hp]
      rw [hset, lookupTy_cons, lookupTy_cons]
      by_cases h : k1 = k
      · rw [if_pos h, if_pos h.symm]
      · rw [if_neg h, if_neg (fun hc : (k, t).1 = k1 => h hc.symm),
          if_neg (fun hc : (pk, pt).1 = k1 => h ((hp.symm.trans hc).symm))]
    · have hset : setTy ((pk, pt) :: rest) k t = (pk, pt) :: setTy rest k t := by
        rw [setTy, if_neg hp]
      rw [hset, lookupTy_cons, lookupTy_cons, ih]
      by_cases h : pk = k1
      · rw [if_pos h, if_pos h, if_neg (fun hc : k1 = k => hp (h.trans hc))]
      · rw [if_neg h, if_neg h]

theorem lookupTy_l2tOf_isSome_preserved (defs : List (String × ParsedDefinition))
    (init : List (String × Ty)) (k : String)
    (h : (lookupTy init k).isSome) : (lookupTy (l2tOf defs init) k).isSome := by
  induction defs generalizing init with
  | nil => exact h
  | cons kd more ih =>
    unfold l2tOf
    rw [List.foldl_cons]
    apply ih
    rw [lookupTy_setTy]
    by_cases hk : k = kd.2.long
    · rw [if_pos hk]; rfl
    · rw [if_neg hk]; exact h

theorem lookupTy_s2tOf_isSome_preserved (defs : List (String × ParsedDefinition))
    (init : List (String × Ty)) (k : String)
    (h : (lookupTy init k).isSome) : (lookupTy (s2tOf defs init) k).isSome := by
  induction defs generalizing init with
  | nil => exact h
  | cons kd more ih =>
    unfold s2tOf
    rw [List.foldl_cons]
    apply ih
    cases hsh : kd.2.short with
    | none => exact h
    | some sh =>
      rw [lookupTy_setTy]
      by_cases hk : k = sh
      · rw [if_pos hk]; rfl
      · rw [if_neg hk]; exact h

/-- Every long flag of the set is registered in the long-type map. -/
theorem lookupTy_l2tOf_isSome (defs : List (String × ParsedDefinition))
    (init : List (String × Ty)) (kd : String × ParsedDefinition) (hkd : kd ∈ defs) :
    (lookupTy (l2tOf defs init) kd.2.long).isSome := by
  induction defs generalizing init with
  | nil => simp at hkd
  | cons kd1 more ih =>
    unfold l2tOf
    rw [List.foldl_cons]
    rcases List.mem_cons.mp hkd with h | h
    · subst h
      apply lookupTy_l2tOf_isSome_preserved
      rw [lookupTy_setTy, if_pos rfl]
      rfl
    · exact ih _ h

/-- Every short alias of the set is registered in the short-type map. -/
theorem lookupTy_s2tOf_isSome (defs : List (String × ParsedDefinition))
    (init : List (String × Ty)) (kd : String × ParsedDefinition) (hkd : kd ∈ defs)
    (sh : String) (hsh : kd.2.short = some sh) :
    (lookupTy (s2tOf defs init) sh).isSome := by
  induction defs generalizing init with
  | nil => simp at hkd
  | cons kd1 more ih =>
    unfold s2tOf
    rw [List.foldl_cons]
    rcases List.mem_cons.mp hkd with h | h
    · subst h
      rw [hsh]
      apply lookupTy_s2tOf_isSome_preserved
      rw [lookupTy_setTy, if_pos rfl]
      rfl
    · exact ih _ h

/-- The unknown-option scan passes when every key is declared. -/
theorem unknownScan_none (args : List String) (l2t s2t : List (String × Ty))
    (entries : List (String × JSVal))
    (h : ∀ p ∈ entries, (lookupTy l2t p.1).isSome ∨ (lookupTy s2t p.1).isSome) :
    unknownScan args l2t s2t entries = none := by
  induction entries with
  | nil => rfl
  | cons p more ih =>
    have hp := h p (List.mem_cons_self _ _)
    have hcond : ¬ ((lookupTy l2t p.1).isNone ∧ (lookupTy s2t p.1).isNone) := by
      rintro ⟨h1, h2⟩
      rcases hp with hp | hp
      · rw [Option.isNone_iff_eq_none.mp h1] at hp; exact absurd hp (by simp)
      · rw [Option.isNone_iff_eq_none.mp h2] at hp; exact absurd hp (by simp)
    simp only [unknownScan, hcond, if_neg, not_false_iff]
    exact ih (fun p1 hp1 => h p1 (List.mem_cons_of_mem _ hp1))

theorem lookupAssoc_isSome_of_mem_fst (m : List (String × JSVal)) (k : String)
    (h : k ∈ m.map Prod.fst) : (lookupAssoc m k).isSome := by
  induction m with
  | nil => simp at h
  | cons p rest ih =>
    rw [lookupAssoc_cons]
    by_cases hp : p.1 = k
    · rw [if_pos hp]; rfl
    · rw [if_neg hp]
      simp only [List.map_cons, List.mem_cons] at h
      rcases h with h1 | h1
      · exact absurd h1.symm hp
      · exact ih h1

theorem foldl_setAssoc_lookup_notmem (defs : List (String × ParsedDefinition))
    (g : String × ParsedDefinition → JSVal) (acc : List (String × JSVal))
    (k : String) (h : k ∉ defs.map Prod.fst) :
    lookupAssoc (defs.foldl (fun r kd => setAssoc r kd.1 (g kd)) acc) k =
      lookupAssoc acc k := by
  induction defs generalizing acc with
  | nil => rfl
  | cons kd more ih =>
    rw [List.foldl_cons, ih _ (fun hc => h (by simp [hc])),
      lookupAssoc_setAssoc, if_neg (fun hc => h (by simp [hc]))]

theorem foldl_setAssoc_lookup_mem (defs : List (String × ParsedDefinition))
    (g : String × ParsedDefinition → JSVal) (acc : List (String × JSVal))
    (hnd : (defs.map Prod.fst).Nodup) (kd : String × ParsedDefinition)
    (hkd : kd ∈ defs) :
    lookupAssoc (defs.foldl (fun r kd1 => setAssoc r kd1.1 (g kd1)) acc) kd.1 =
      some (g kd) := by
  induction defs generalizing acc with
  | nil => simp at hkd
  | cons kd1 more ih =>
    rw [List.foldl_cons]
    simp only [List.map_cons, List.nodup_cons] at hnd
    rcases List.mem_cons.mp hkd with h | h
    · subst h
      rw [foldl_setAssoc_lookup_notmem more g _ kd.1 hnd.1,
        lookupAssoc_setAssoc, if_pos rfl]
    · exact ih _ hnd.2 h

theorem long_mem_flagsOfDef (d : ParsedDefinition) : d.long ∈ flagsOfDef d := by
  unfold flagsOfDef
  exact List.mem_append_right _ (List.mem_singleton_self _)

theorem short_mem_flagsOfDef (d : ParsedDefinition) (sh : String)
    (h : d.short = some sh) : sh ∈ flagsOfDef d := by
  unfold flagsOfDef
  rw [h]
  exact List.mem_append_left _ (List.mem_singleton_self _)

theorem flagsOfDef_cases (d : ParsedDefinition) (k : String)
    (h : k ∈ flagsOfDef d) : d.short = some k ∨ k = d.long := by
  unfold flagsOfDef at h
  cases hsh : d.short with
  | none =>
    rw [hsh] at h
    simp at h
    exact Or.inr h
  | some sh =>
    rw [hsh] at h
    rcases List.mem_append.mp h with h1 | h1
    · exact Or.inl (by rw [List.mem_singleton.mp h1])
    · exact Or.inr (List.mem_singleton.mp h1)

/-- A key of the tokenizer's boolean-initialised object is declared in
one of the two alias-type maps `validate` accumulates. -/
theorem boolInit_key_declared (defs : List (String × ParsedDefinition)) (x : String)
    (hx : x ∈ booleanKeys defs) :
    (lookupTy (l2tOf defs []) x).isSome ∨ (lookupTy (s2tOf defs []) x).isSome := by
  obtain ⟨kd, hkd, _, hmem⟩ := (mem_booleanKeys defs x).mp hx
  rcases flagsOfDef_cases kd.2 x hmem with hsh | hlg
  · exact Or.inr (lookupTy_s2tOf_isSome defs [] kd hkd x hsh)
  · exact Or.inl (hlg ▸ lookupTy_l2tOf_isSome defs [] kd hkd)

/-- Every declared channel reads as absent in the boolean-initialised
parsed object (missing, or `false` for a boolean flag). -/
theorem chanAbsent_boolInit (defs : List (String × ParsedDefinition))
    (hfnd : (flagsOf defs).Nodup) (kd : String × ParsedDefinition) (hkd : kd ∈ defs)
    (ch : String) (hchm : ch ∈ flagsOfDef kd.2) :
    chanAbsent ((booleanKeys defs).foldl
      (fun m b => setArgKey (booleanKeys defs) m b (.bool false)) [])
      kd.2.type ch := by
  unfold chanAbsent
  rw [boolInit_foldl_lookup (booleanKeys defs) (booleanKeys defs) [] ch
    (fun b hb => by simpa using hb)]
  by_cases hb : ch ∈ booleanKeys defs
  · rw [if_pos hb]
    exact Or.inr ⟨nodup_flag_owner defs hfnd kd hkd ch hchm hb, rfl⟩
  · rw [if_neg hb]
    exact trivial

/-! ## Claim C8 -/

/-- C8 counterexample: `--help:boolean=true` is a valid definition set
with no required option, yet parsing an empty token list does not
succeed — the defaulted-true `help` option makes `parseArgs` print help
and exit 0 under the default `handleHelp` setting. -/
theorem C8_counterexample :
    parseDefinitions [("help", "--help:boolean=true")] =
      .ok [("help", { short := none, long := "help", type := .boolean,
                      required := false, defaultValue := .bool true,
                      description := "" })] ∧
    parseArgs [] [("help", "--help:boolean=true")] {} = .exited 0 :=
  ⟨rfl, rfl⟩

/-- C8 amended: for a valid definition set whose required options all
have non-null defaults, as long as no option keyed `help` defaults to
`true` while `handleHelp` is active (and `requireTarget` is off),
parsing an empty token list returns successfully with empty targets and
rest, binding every key to its stored default — the explicit `=default`
literal when one was given (an array default `[a, b]` exactly in that
order), and the type's implicit default otherwise. -/
theorem C8_amended (types : List (String × String))
    (defs : List (String × ParsedDefinition)) (opts : PAOptions)
    (hdefs : parseDefinitions types = .ok defs)
    (hreq : ∀ kd ∈ defs, kd.2.required = true → kd.2.defaultValue.isNull = false)
    (hrt : opts.requireTarget.truthy = false)
    (hhelp : opts.handleHelp = false ∨
      ∀ kd ∈ defs, kd.1 = "help" → kd.2.defaultValue.isTrueLit = false)
    (hnd : (defs.map Prod.fst).Nodup) :
    ∃ r, parseArgs [] types opts = .ok r ∧ r.targets = [] ∧ r.rest = [] ∧
      ∀ kd ∈ defs, lookupAssoc r.options kd.1 = some kd.2.defaultValue := by
  have hok := parseDefinitions_defOk types defs hdefs
  have hfnd := parseDefinitions_flags_nodup types defs hdefs
  have hcond : ∀ kd ∈ defs, defOk kd.2 ∧
      (kd.2.required = true → kd.2.defaultValue.isNull = false) ∧
      chanAbsent ((booleanKeys defs).foldl
        (fun m b => setArgKey (booleanKeys defs) m b (.bool false)) [])
        kd.2.type kd.2.long ∧
      (∀ sh, kd.2.short = some sh →
        chanAbsent ((booleanKeys defs).foldl
          (fun m b => setArgKey (booleanKeys defs) m b (.bool false)) [])
          kd.2.type sh) := by
    intro kd hkd
    exact ⟨hok kd hkd, hreq kd hkd,
      chanAbsent_boolInit defs hfnd kd hkd kd.2.long (long_mem_flagsOfDef kd.2),
      fun sh hsh => chanAbsent_boolInit defs hfnd kd hkd sh
        (short_mem_flagsOfDef kd.2 sh hsh)⟩
  obtain ⟨flagsF, heq, hfst, _⟩ :=
    validateLoop_absent defs
      ((booleanKeys defs).foldl
        (fun m b => setArgKey (booleanKeys defs) m b (.bool false)) [])
      [] [] [] hcond
  have hscan : unknownScan [] (l2tOf defs []) (s2tOf defs []) flagsF = none := by
    apply unknownScan_none
    intro p hp
    have hmem : p.1 ∈ flagsF.map Prod.fst := List.mem_map_of_mem Prod.fst hp
    rw [hfst] at hmem
    have hsome := lookupAssoc_isSome_of_mem_fst _ _ hmem
    rw [boolInit_foldl_lookup (booleanKeys defs) (booleanKeys defs) [] p.1
      (fun b hb => by simpa using hb)] at hsome
    by_cases hb : p.1 ∈ booleanKeys defs
    · exact boolInit_key_declared defs p.1 hb
    · rw [if_neg hb] at hsome
      exact absurd hsome (by simp [lookupAssoc_nil])
  have hval : validate [] (minimist [] (booleanKeys defs)) defs opts.requireTarget =
      .ok { targets := [],
            options := defs.foldl (fun r kd => setAssoc r kd.1 kd.2.defaultValue) [],
            rest := [] } := by
    rw [show minimist [] (booleanKeys defs) =
        { flags := (booleanKeys defs).foldl
            (fun m b => setArgKey (booleanKeys defs) m b (.bool false)) [],
          targets := [], ddash := [] } from rfl]
    simp only [validate]
    rw [if_neg (fun hc => by rw [hrt] at hc; simp at hc)]
    rw [heq]
    simp only [hscan]
    rfl
  have hnohelp : ¬ (opts.handleHelp = true ∧
      ((lookupAssoc (defs.foldl (fun r kd => setAssoc r kd.1 kd.2.defaultValue) [])
        "help").any JSVal.isTrueLit) = true) := by
    rintro ⟨hH, hA⟩
    rcases hhelp with hh | hh
    · rw [hh] at hH; simp at hH
    · by_cases hm : "help" ∈ defs.map Prod.fst
      · obtain ⟨kd, hkd, hk1⟩ := List.mem_map.mp hm
        rw [← hk1, foldl_setAssoc_lookup_mem defs _ [] hnd kd hkd] at hA
        rw [show (some kd.2.defaultValue).any JSVal.isTrueLit =
          kd.2.defaultValue.isTrueLit from rfl, hh kd hkd hk1] at hA
        simp at hA
      · rw [foldl_setAssoc_lookup_notmem defs _ [] "help" hm, lookupAssoc_nil] at hA
        simp at hA
  refine ⟨{ targets := [],
            options := defs.foldl (fun r kd => setAssoc r kd.1 kd.2.defaultValue) [],
            rest := [] }, ?_, rfl, rfl, ?_⟩
  · simp only [parseArgs, hdefs, hval]
    rw [if_neg hnohelp]
  · intro kd hkd
    exact foldl_setAssoc_lookup_mem defs _ [] hnd kd hkd

/-- C8 witness: the amended theorem applied to a set exhibiting the five
implicit defaults and a round-tripped array default `[1, 2]`, with the
resolved bindings checked concretely. -/
theorem C8_amended_witness :
    (∃ r, parseArgs []
        [("b", "--b:boolean"), ("n", "-n,--num:number"), ("s", "--s:string"),
         ("na", "--na:number[]"), ("sa", "--sa:string[]"),
         ("arr", "-m,--marr:number[]=[1,2]")] {} = .ok r ∧
      r.targets = [] ∧ r.rest = [] ∧
      ∀ kd ∈ ([("b", ⟨none, "b", .boolean, false, .bool false, ""⟩),
        ("n", ⟨some "n", "num", .number, false, .null, ""⟩),
        ("s", ⟨none, "s", .string, false, .null, ""⟩),
        ("na", ⟨none, "na", .numberArray, false, .arr [], ""⟩),
        ("sa", ⟨none, "sa", .stringArray, false, .arr [], ""⟩),
        ("arr", ⟨some "m", "marr", .numberArray, false,
          .arr [.num 1, .num 2], ""⟩)] :
          List (String × ParsedDefinition)),
        lookupAssoc r.options kd.1 = some kd.2.defaultValue) ∧
    (∀ r, parseArgs []
        [("b", "--b:boolean"), ("n", "-n,--num:number"), ("s", "--s:string"),
         ("na", "--na:number[]"), ("sa", "--sa:string[]"),
         ("arr", "-m,--marr:number[]=[1,2]")] {} = .ok r →
      lookupAssoc r.options "b" = some (.bool false) ∧
      lookupAssoc r.options "n" = some .null ∧
      lookupAssoc r.options "s" = some .null ∧
      lookupAssoc r.options "na" = some (.arr []) ∧
      lookupAssoc r.options "sa" = some (.arr []) ∧
      lookupAssoc r.options "arr" = some (.arr [.num 1, .num 2])) := by
  refine ⟨C8_amended _ _ {} rfl (by decide) rfl
    (Or.inr (by decide)) (by decide), ?_⟩
  intro r hr
  have hre : r = ⟨[], [("b", .bool false), ("n", .null), ("s", .null),
      ("na", .arr []), ("sa", .arr []), ("arr", .arr [.num 1, .num 2])], []⟩ := by
    have h2 : Outcome.ok r = Outcome.ok
        ⟨[], [("b", .bool false), ("n", .null), ("s", .null),
          ("na", .arr []), ("sa", .arr []), ("arr", .arr [.num 1, .num 2])], []⟩ := by
      rw [← hr]; rfl
    exact (Outcome.ok.inj h2)
  subst hre
  exact ⟨rfl, rfl, rfl, rfl, rfl, rfl⟩

/-! ## Claim C9 -/

theorem coerceStringItems_ok_all_str (fn : String) (xs ys : List JSVal)
    (h : coerceStringItems fn xs = .ok ys) : ys.all JSVal.isStr = true := by
  induction xs generalizing ys with
  | nil =>
    simp only [coerceStringItems] at h
    rw [← Except.ok.inj h]
    rfl
  | cons x rest ih =>
    cases x <;> simp only [coerceStringItems] at h
    case null => simp at h
    case bool b => simp at h
    case num q =>
      split at h
      · next ys1 heq =>
        rw [← Except.ok.inj h]
        simp [JSVal.isStr, ih ys1 heq]
      · simp at h
    case str s1 =>
      split at h
      · next ys1 heq =>
        rw [← Except.ok.inj h]
        simp [JSVal.isStr, ih ys1 heq]
      · simp at h
    case arr xs2 => simp at h
    case obj fs => simp at h

/-- A successfully resolved option value matches the declared runtime
type of §3. -/
theorem resolveOption_typed (d : ParsedDefinition) (flags : List (String × JSVal))
    (v : JSVal) (flags1 : List (String × JSVal)) (hok : defOk d)
    (h : resolveOption d flags = .ok (v, flags1)) :
    typeMatches d.type v = true := by
  have hdn := fun hty => defOk_default_not_null d hok hty
  obtain ⟨short, long, ty, req, dv, desc⟩ := d
  simp only at hdn ⊢
  cases ty with
  | boolean =>
    have hdvf : dv.isNull = false := hdn (Or.inl rfl)
    simp only [resolveOption] at h
    repeat' split at h
    all_goals first
      | (simp at h; done)
      | (simp_all; done)
      | (have hv := congrArg Prod.fst (Except.ok.inj h)
         simp only at hv
         rw [← hv]
         first
           | rfl
           | assumption
           | (simp_all [typeMatches, JSVal.isBool, JSVal.isNum, JSVal.isStr]
              done))
  | number =>
    simp only [resolveOption] at h
    repeat' split at h
    all_goals first
      | (simp at h; done)
      | (simp_all; done)
      | (have hv := congrArg Prod.fst (Except.ok.inj h)
         simp only at hv
         rw [← hv]
         first
           | rfl
           | assumption
           | (simp_all [typeMatches, JSVal.isBool, JSVal.isNum, JSVal.isStr]
              done))
  | string =>
    simp only [resolveOption] at h
    repeat' split at h
    all_goals first
      | (simp at h; done)
      | (simp_all; done)
      | (have hv := congrArg Prod.fst (Except.ok.inj h)
         simp only at hv
         rw [← hv]
         first
           | rfl
           | assumption
           | (simp_all [typeMatches, JSVal.isBool, JSVal.isNum, JSVal.isStr]
              done))
  | numberArray =>
    have hdvf : dv.isNull = false := hdn (Or.inr (Or.inl rfl))
    simp only [resolveOption] at h
    repeat' split at h
    all_goals first
      | (simp at h; done)
      | (simp_all; done)
      | (have hv := congrArg Prod.fst (Except.ok.inj h)
         simp only at hv
         rw [← hv]
         first
           | rfl
           | assumption
           | (simp_all [typeMatches, JSVal.isBool, JSVal.isNum, JSVal.isStr]
              done))
  | stringArray =>
    have hdvf : dv.isNull = false := hdn (Or.inr (Or.inr rfl))
    simp only [resolveOption] at h
    repeat' split at h
    all_goals first
      | (simp at h; done)
      | (simp_all; done)
      | (have hv := congrArg Prod.fst (Except.ok.inj h)
         simp only at hv
         rw [← hv]
         first
           | rfl
           | assumption
           | exact coerceStringItems_ok_all_str _ _ _ (by assumption)
           | (simp_all [typeMatches, JSVal.isBool, JSVal.isNum, JSVal.isStr]
              done))

/-- The per-key pass leaves the binding of a key outside its definition
list untouched. -/
theorem validateLoop_lookup_notmem (defs : List (String × ParsedDefinition))
    (flags res : List (String × JSVal)) (l2t s2t : List (String × Ty))
    (result flags1 : List (String × JSVal)) (L S : List (String × Ty))
    (h : validateLoop defs flags res l2t s2t = .ok (result, flags1, L, S))
    (k : String) (hk : k ∉ defs.map Prod.fst) :
    lookupAssoc result k = lookupAssoc res k := by
  induction defs generalizing flags res l2t s2t with
  | nil =>
    simp only [validateLoop] at h
    have h1 := congrArg (fun p => p.1) (Except.ok.inj h)
    simp at h1
    rw [← h1]
  | cons kd more ih =>
    obtain ⟨key, d⟩ := kd
    simp only [validateLoop] at h
    match hr : resolveOption d flags with
    | .error e => rw [hr] at h; simp at h
    | .ok (v0, flags2) =>
      rw [hr] at h
      have hk2 : k ∉ more.map Prod.fst := fun hc => hk (by simp [hc])
      rw [ih _ _ _ _ h hk2, lookupAssoc_setAssoc,
        if_neg (fun hc => hk (by simp [hc]))]

/-- Every key of the definition list is bound by the per-key pass to a
value of its declared runtime type. -/
theorem validateLoop_typed (defs : List (String × ParsedDefinition))
    (flags res : List (String × JSVal)) (l2t s2t : List (String × Ty))
    (result flags1 : List (String × JSVal)) (L S : List (String × Ty))
    (h : validateLoop defs flags res l2t s2t = .ok (result, flags1, L, S))
    (hok : ∀ kd ∈ defs, defOk kd.2) (hnd : (defs.map Prod.fst).Nodup) :
    ∀ kd ∈ defs, ∃ v, lookupAssoc result kd.1 = some v ∧
      typeMatches kd.2.type v = true := by
  induction defs generalizing flags res l2t s2t with
  | nil => intro kd hkd; simp at hkd
  | cons kd0 more ih =>
    obtain ⟨key, d⟩ := kd0
    simp only [validateLoop] at h
    simp only [List.map_cons, List.nodup_cons] at hnd
    intro kd hkd
    match hr : resolveOption d flags with
    | .error e => rw [hr] at h; simp at h
    | .ok (v0, flags2) =>
      rw [hr] at h
      rcases List.mem_cons.mp hkd with hh | hh
      · subst hh
        refine ⟨v0, ?_,
          resolveOption_typed d flags v0 flags2
            (hok _ (List.mem_cons_self _ _)) hr⟩
        show lookupAssoc result key = some v0
        rw [validateLoop_lookup_notmem more _ _ _ _ _ _ _ _ h key hnd.1,
          lookupAssoc_setAssoc, if_pos rfl]
      · exact ih _ _ _ _ h
          (fun kd2 hk2 => hok kd2 (List.mem_cons_of_mem _ hk2)) hnd.2 kd hh

/-- C9: whenever `parseArgs` returns successfully, the options mapping
contains every key of the (duplicate-free) definition set, bound to a
value whose runtime type matches the declared type: a boolean for
`boolean`, a number or null for `number`, a string or null for `string`,
and a sequence of numbers (strings) for `number[]` (`string[]`). -/
theorem C9_type_invariant (args : List String) (types : List (String × String))
    (opts : PAOptions) (defs : List (String × ParsedDefinition)) (r : VResult)
    (hdefs : parseDefinitions types = .ok defs)
    (hnd : (defs.map Prod.fst).Nodup)
    (h : parseArgs args types opts = .ok r) :
    ∀ kd ∈ defs, ∃ v, lookupAssoc r.options kd.1 = some v ∧
      typeMatches kd.2.type v = true := by
  have hok := parseDefinitions_defOk types defs hdefs
  simp only [parseArgs, hdefs] at h
  match hv : validate args (minimist args (booleanKeys defs)) defs
      opts.requireTarget with
  | .error e =>
    rw [hv] at h
    repeat' split at h
    all_goals simp_all
  | .ok validated =>
    rw [hv] at h
    have h2 : (if opts.handleHelp = true ∧
        Option.any JSVal.isTrueLit (lookupAssoc validated.options "help") = true
        then Outcome.exited 0 else Outcome.ok validated) = Outcome.ok r := h
    split at h2
    · simp at h2
    · have hrv : validated = r := Outcome.ok.inj h2
      simp only [validate] at hv
      split at hv
      · simp at hv
      · match hl : validateLoop defs (minimist args (booleanKeys defs)).flags
            [] [] [] with
        | .error e => rw [hl] at hv; simp at hv
        | .ok (result, flags2, l2t, s2t) =>
          simp only [hl] at hv
          match hb : boolAssignScan l2t args with
          | some e => rw [hb] at hv; simp at hv
          | none =>
            simp only [hb] at hv
            match hu : unknownScan args l2t s2t flags2 with
            | some e => rw [hu] at hv; simp at hv
            | none =>
              simp only [hu] at hv
              have hopts : r.options = result := by
                rw [← hrv, ← Except.ok.inj hv]
              rw [hopts]
              exact validateLoop_typed defs _ [] [] [] result flags2 l2t s2t
                hl hok hnd

/-- C9 witness: the invariant applied to `-n 42` against a single
`number` option. -/
theorem C9_type_invariant_witness :
    ∃ v, lookupAssoc (VResult.options ⟨[], [("num", .num 42)], []⟩) "num" =
        some v ∧ typeMatches Ty.number v = true :=
  C9_type_invariant ["-n", "42"] [("num", "-n,--num:number")] {}
    [("num", ⟨some "n", "num", .number, false, .null, ""⟩)]
    ⟨[], [("num", .num 42)], []⟩ rfl (by decide) rfl
    ("num", ⟨some "n", "num", .number, false, .null, ""⟩)
    (List.mem_singleton_self _)

/-! ## Claim C6 -/

theorem splitAtDashDash_single (tok : String) (h : tok ≠ "--") :
    splitAtDashDash [tok] = ([tok], []) := by
  unfold splitAtDashDash
  rw [if_neg h]
  rfl

/-- Tokenizing a single non-`--` token. -/
theorem minimist_single_flags (bools : List String) (tok : String) (hne : tok ≠ "--")
    (m : List (String × JSVal)) (pos : List JSVal)
    (hloop : minimistLoop bools ([tok].length + 1) [tok]
      (bools.foldl (fun m2 b => setArgKey bools m2 b (.bool false)) []) [] = (m, pos)) :
    minimist [tok] bools = { flags := m, targets := pos, ddash := [] } := by
  unfold minimist
  rw [splitAtDashDash_single _ hne]
  show (match minimistLoop bools ([tok].length + 1) [tok]
      (bools.foldl (fun m2 b => setArgKey bools m2 b (.bool false)) []) [] with
    | (m2, pos2) => ({ flags := m2, targets := pos2, ddash := [] } : Parsed)) =
    { flags := m, targets := pos, ddash := [] }
  rw [hloop]

end TypedArgs
